import Mathlib

/-!
# Synthesizer: envelope, oscillator bank and block-streaming engine

A shallow embedding of `src/synthesizer/AudioHandler.h` and
`src/synthesizer/main.cpp`.

Arithmetic model.  A C++ `double` is modelled by an element of a linearly
ordered field `R` (instantiated at `ℚ` for evaluation and at `ℝ` where the
transcendental functions are needed); rounding is not modelled.  Where a
division by zero can be reached, in `ADSR::GetAmplitude`, the code is also read
over `Dbl R`, the field extended with the two infinities and NaN.
`unsigned int` members are natural numbers reduced modulo `2 ^ 32` where the
code can wrap.
-/

namespace Synth

/-! ## Doubles with infinities and NaN -/

/-- A `double` as IEEE 754 sees it, with exact finite arithmetic: a finite
value, one of the two infinities, or NaN.  Zero is the positive zero. -/
inductive Dbl (R : Type) where
  | fin (x : R)
  | posInf
  | negInf
  | nan

namespace Dbl

/-- Negation. -/
def neg {R : Type} [LinearOrderedField R] : Dbl R → Dbl R
  | fin x => fin (-x)
  | posInf => negInf
  | negInf => posInf
  | nan => nan

/-- Addition: NaN is absorbing and `inf + (-inf)` is NaN. -/
def add {R : Type} [LinearOrderedField R] : Dbl R → Dbl R → Dbl R
  | fin a, fin b => fin (a + b)
  | nan, _ => nan
  | _, nan => nan
  | posInf, negInf => nan
  | negInf, posInf => nan
  | posInf, _ => posInf
  | _, posInf => posInf
  | negInf, _ => negInf
  | _, negInf => negInf

/-- Subtraction. -/
def sub {R : Type} [LinearOrderedField R] (a b : Dbl R) : Dbl R := add a (neg b)

/-- The infinity with the sign of `s * x` for `x ≠ 0`, NaN for `x = 0`
(`inf * 0`); `s` is `true` for the positive infinity. -/
def infTimes {R : Type} [LinearOrderedField R] (s : Bool) (x : R) : Dbl R :=
  if x = 0 then nan
  else if (0 < x) = s then posInf
  else negInf

/-- Multiplication: NaN is absorbing and `inf * 0` is NaN. -/
def mul {R : Type} [LinearOrderedField R] : Dbl R → Dbl R → Dbl R
  | fin a, fin b => fin (a * b)
  | nan, _ => nan
  | _, nan => nan
  | posInf, fin b => infTimes true b
  | negInf, fin b => infTimes false b
  | fin a, posInf => infTimes true a
  | fin a, negInf => infTimes false a
  | posInf, posInf => posInf
  | posInf, negInf => negInf
  | negInf, posInf => negInf
  | negInf, negInf => posInf

/-- Division: NaN is absorbing, `0 / 0` and `inf / inf` are NaN, `x / 0` for
`x ≠ 0` is the infinity with the sign of `x`, and `x / inf` is zero. -/
def div {R : Type} [LinearOrderedField R] : Dbl R → Dbl R → Dbl R
  | nan, _ => nan
  | _, nan => nan
  | fin a, fin b =>
    if b = 0 then
      (if a = 0 then nan else if 0 < a then posInf else negInf)
    else fin (a / b)
  | fin _, posInf => fin 0
  | fin _, negInf => fin 0
  | posInf, fin b => if 0 ≤ b then posInf else negInf
  | negInf, fin b => if 0 ≤ b then negInf else posInf
  | posInf, posInf => nan
  | posInf, negInf => nan
  | negInf, posInf => nan
  | negInf, negInf => nan

/-- The comparison `a <= b`: false as soon as one side is NaN. -/
def ble {R : Type} [LinearOrderedField R] : Dbl R → Dbl R → Bool
  | fin a, fin b => decide (a ≤ b)
  | nan, _ => false
  | _, nan => false
  | negInf, _ => true
  | _, posInf => true
  | posInf, _ => false
  | fin _, negInf => false

/-- The comparison `a < b`: false as soon as one side is NaN. -/
def blt {R : Type} [LinearOrderedField R] : Dbl R → Dbl R → Bool
  | fin a, fin b => decide (a < b)
  | nan, _ => false
  | _, nan => false
  | negInf, negInf => false
  | negInf, _ => true
  | posInf, _ => false
  | fin _, posInf => true
  | fin _, negInf => false

end Dbl

instance Dbl.instAdd {R : Type} [LinearOrderedField R] : Add (Dbl R) := ⟨Dbl.add⟩

instance Dbl.instSub {R : Type} [LinearOrderedField R] : Sub (Dbl R) := ⟨Dbl.sub⟩

instance Dbl.instMul {R : Type} [LinearOrderedField R] : Mul (Dbl R) := ⟨Dbl.mul⟩

instance Dbl.instDiv {R : Type} [LinearOrderedField R] : Div (Dbl R) := ⟨Dbl.div⟩

instance Dbl.instLE {R : Type} [LinearOrderedField R] : LE (Dbl R) :=
  ⟨fun a b => Dbl.ble a b = true⟩

instance Dbl.instLT {R : Type} [LinearOrderedField R] : LT (Dbl R) :=
  ⟨fun a b => Dbl.blt a b = true⟩

instance Dbl.instDecidableLE {R : Type} [LinearOrderedField R] :
    DecidableRel (LE.le : Dbl R → Dbl R → Prop) :=
  fun a b => inferInstanceAs (Decidable (Dbl.ble a b = true))

instance Dbl.instDecidableLT {R : Type} [LinearOrderedField R] :
    DecidableRel (LT.lt : Dbl R → Dbl R → Prop) :=
  fun a b => inferInstanceAs (Decidable (Dbl.blt a b = true))

instance Dbl.instOfScientific {R : Type} [LinearOrderedField R] : OfScientific (Dbl R) :=
  ⟨fun m s e => Dbl.fin (OfScientific.ofScientific m s e)⟩

/-! ## `AudioHandler::clip` (AudioHandler.h, lines 117-123) -/

/-- The hard clipper: `fmin(sample, max)` for a non-negative sample,
`fmax(sample, -max)` otherwise. -/
def clip {R : Type} [LinearOrderedField R] (sample max : R) : R :=
  if sample ≥ 0 then Min.min sample max else Max.max sample (-max)

/-! ## `struct ADSR` (main.cpp, lines 11-77) -/

/-- The envelope record: five shape parameters and the event state. -/
structure ADSR (R : Type) where
  attackTime : R
  decayTime : R
  sustainAmplitude : R
  releaseTime : R
  startAmplitude : R
  triggerOffTime : R
  triggerOnTime : R
  isNoteOn : Bool

namespace ADSR

/-- The constructor `ADSR()`: the default shape, note off, both triggers at 0. -/
def init {R : Type} [LinearOrderedField R] : ADSR R :=
  { attackTime := 0.10
    decayTime := 0.01
    startAmplitude := 1.0
    sustainAmplitude := 0.8
    releaseTime := 0.20
    isNoteOn := false
    triggerOffTime := 0.0
    triggerOnTime := 0.0 }

/-- The method `NoteOn(timeOn)`. -/
def NoteOn {R : Type} (s : ADSR R) (timeOn : R) : ADSR R :=
  { s with triggerOnTime := timeOn, isNoteOn := true }

/-- The method `NoteOff(timeOff)`. -/
def NoteOff {R : Type} (s : ADSR R) (timeOff : R) : ADSR R :=
  { s with triggerOffTime := timeOff, isNoteOn := false }

/-- The method `GetAmplitude(time)`: the three note-on tests are run one after
another on the mutable local `amplitude`, exactly as in the source, and the
final test snaps every value not above `0.0001` to zero.  The number type `R`
only has to supply the operations the method uses, so that the same text is
read over a field and over `Dbl`. -/
def GetAmplitude {R : Type} [Add R] [Sub R] [Mul R] [Div R] [LE R] [LT R] [OfScientific R]
    [DecidableRel (LE.le : R → R → Prop)] [DecidableRel (LT.lt : R → R → Prop)]
    (s : ADSR R) (time : R) : R :=
  let amplitude : R := 0.0
  let lifeTime : R := time - s.triggerOnTime
  let amplitude : R :=
    if s.isNoteOn then
      let amplitude : R :=
        if lifeTime ≤ s.attackTime then
          (lifeTime / s.attackTime) * s.startAmplitude
        else amplitude
      let amplitude : R :=
        if lifeTime > s.attackTime ∧ lifeTime ≤ s.attackTime + s.decayTime then
          ((lifeTime - s.attackTime) / s.decayTime)
            * (s.sustainAmplitude - s.startAmplitude) + s.startAmplitude
        else amplitude
      let amplitude : R :=
        if lifeTime > s.attackTime + s.decayTime then s.sustainAmplitude
        else amplitude
      amplitude
    else
      ((time - s.triggerOffTime) / s.releaseTime) * (0.0 - s.sustainAmplitude)
        + s.sustainAmplitude
  if amplitude ≤ 0.0001 then 0.0 else amplitude

/-- The envelope record read as doubles: every member is the finite value it
holds. -/
def toDbl {R : Type} (s : ADSR R) : ADSR (Dbl R) :=
  { attackTime := Dbl.fin s.attackTime
    decayTime := Dbl.fin s.decayTime
    sustainAmplitude := Dbl.fin s.sustainAmplitude
    releaseTime := Dbl.fin s.releaseTime
    startAmplitude := Dbl.fin s.startAmplitude
    triggerOffTime := Dbl.fin s.triggerOffTime
    triggerOnTime := Dbl.fin s.triggerOnTime
    isNoteOn := s.isNoteOn }

end ADSR

/-- The floor applied at the end of `GetAmplitude`, as the specification words
it: a value not above `0.0001` becomes `0`. -/
def snapFloor {R : Type} [LinearOrderedField R] (a : R) : R :=
  if a ≤ 0.0001 then 0 else a

/-- A `WAVEHDR` descriptor, reduced to the members the engine touches:
`dwBufferLength`, `lpData` (as an offset into the block memory) and the
`WHDR_PREPARED` bit of `dwFlags`. -/
structure WaveHdr where
  dwBufferLength : Nat
  lpData : Nat
  prepared : Bool
deriving DecidableEq

/-- The OS audio subsystem as `create` sees it: the list `enumerate()` returns,
whether `waveOutOpen` answers `S_OK` for a device id, and whether an array
`new` of a given length yields storage. -/
structure WaveOut where
  devices : List String
  waveOutOpen : Nat → Bool
  allocate : Nat → Bool

/-- The members of `AudioHandler<T>`.  Every member that `create` does not
assign keeps the value the object held before the call. -/
structure AudioHandler (R : Type) where
  actionPtr : Option (R → R)
  sampleRate : Nat
  channels : Nat
  countBlocks : Nat
  blocksamples : Nat
  currentBlock : Nat
  blockMemoryPtr : Option (List Int)
  waveHeaderPtr : Option (List WaveHdr)
  hardwareDevices : Option Nat
  thread : Bool
  isReady : Bool
  freeBlocks : Nat
  globalTimer : R

/-- The range of `unsigned int`. -/
def UINT_MAX1 : Nat := 2 ^ 32

namespace AudioHandler

/-- The method `destroy()`. -/
def destroy : Bool := false

/-- The method `userProcess(time)`, the default synthesis function. -/
def userProcess {R : Type} [LinearOrderedField R] (_time : R) : R := 0.0

/-- The headers `create` builds in its `for` loop: header `n` has length
`blockSamples * sizeof(T)` and points at offset `n * blockSamples`. -/
def initHeaders (sizeofT countBlocks blockSamples : Nat) : List WaveHdr :=
  (List.range countBlocks).map fun n =>
    { dwBufferLength := blockSamples * sizeofT, lpData := n * blockSamples, prepared := false }

/-- The method `create(outputDevice, sampleRate, channels, blocks, blockSamples)`
on the object `self`; `sizeofT` is `sizeof(T)`.  The result is the returned
`bool` and the object after the call.  The statement `sampleRate = sampleRate;`
assigns the parameter to itself, and no statement assigns the members
`sampleRate`, `channels` or `blocksamples`. -/
def create {R : Type} (sizeofT : Nat) (os : WaveOut) (self : AudioHandler R)
    (outputDevice : String) (sampleRate channels blocks blockSamples : Nat) :
    Bool × AudioHandler R :=
  let self := { self with isReady := false }
  let sampleRate := sampleRate
  let self := { self with countBlocks := blocks }
  let self := { self with freeBlocks := self.countBlocks }
  let self := { self with currentBlock := 0 }
  let self := { self with blockMemoryPtr := none }
  let self := { self with waveHeaderPtr := none }
  let self := { self with actionPtr := none }
  let device := os.devices.indexOf outputDevice
  let opened : Option (AudioHandler R) :=
    if device ≠ os.devices.length then
      let deviceId := device
      let _nSamplesPerSec := sampleRate
      let _nChannels := channels
      if os.waveOutOpen deviceId then some { self with hardwareDevices := some deviceId }
      else none
    else some self
  match opened with
  | none => (destroy, self)
  | some self =>
    let len := (self.countBlocks * blockSamples) % UINT_MAX1
    if os.allocate len = false then (destroy, self)
    else
      let self := { self with blockMemoryPtr := some (List.replicate len 0) }
      if os.allocate self.countBlocks = false then (destroy, self)
      else
        let self :=
          { self with waveHeaderPtr := some (initHeaders sizeofT self.countBlocks blockSamples) }
        let self := { self with isReady := true }
        let self := { self with thread := true }
        (true, self)

end AudioHandler

/-- Conversion of a `double` to an integer: truncation toward zero. -/
def truncate {R : Type} [LinearOrderedField R] [FloorRing R] (x : R) : Int :=
  if 0 ≤ x then ⌊x⌋ else ⌈x⌉

/-- Conversion of a `double` to the signed sample type of `w` bits: the
truncated value when the type can hold it; otherwise the conversion is
undefined and the model returns `none`. -/
def toSample {R : Type} [LinearOrderedField R] [FloorRing R] (w : Nat) (x : R) : Option Int :=
  let z := truncate x
  if -(2 : Int) ^ (w - 1) ≤ z ∧ z ≤ (2 : Int) ^ (w - 1) - 1 then some z else none

/-- The local `maxSample` of `mainThread`:
`pow(2, (sizeof(double) * 8) - 1) - 1`, with `sizeof(double) = 8`; the exact
value `2 ^ 63 - 1` (the nearest `double` is `2 ^ 63`). -/
def maxSample {R : Type} [LinearOrderedField R] : R := (2 : R) ^ ((8 * 8) - 1) - 1

/-- What the inner `for` loop of `mainThread` works on: the block memory, the
global timer, and (for the statements about calls) the arguments the synthesis
function has been called with, oldest first. -/
structure FillState (R : Type) where
  memory : List Int
  globalTimer : R
  calls : List R

/-- The inner `for (n = 0; n < blocksamples; n++)` loop of `mainThread`, from
index `n` with `remaining` rounds to go.  A store outside the block memory or an
undefined conversion gives `none`. -/
def fillLoop {R : Type} [LinearOrderedField R] [FloorRing R] (w : Nat) (f : R → R)
    (timeStep : R) (newCurrentBlock : Nat) : Nat → Nat → FillState R → Option (FillState R)
  | _, 0, st => some st
  | n, remaining + 1, st =>
    match toSample w (clip (f st.globalTimer) 1.0 * maxSample) with
    | none => none
    | some newSample =>
      if newCurrentBlock + n < st.memory.length then
        fillLoop w f timeStep newCurrentBlock (n + 1) remaining
          { memory := st.memory.set (newCurrentBlock + n) newSample
            globalTimer := st.globalTimer + timeStep
            calls := st.calls ++ [st.globalTimer] }
      else none

/-- One round of the `while (isReady)` loop of `mainThread`, from the
statement `freeBlocks--` to `currentBlock %= countBlocks`; `w` is the width of
`T` in bits.  The result is the object after the round and the arguments of
the calls made to the synthesis function. -/
def mainThreadRound {R : Type} [LinearOrderedField R] [FloorRing R] (w : Nat)
    (self : AudioHandler R) : Option (AudioHandler R × List R) :=
  let timeStep : R := 1.0 / (self.sampleRate : R)
  let self := { self with freeBlocks := (self.freeBlocks + UINT_MAX1 - 1) % UINT_MAX1 }
  match self.blockMemoryPtr, self.waveHeaderPtr with
  | some memory, some headers =>
    let headers :=
      if (headers.getD self.currentBlock ⟨0, 0, false⟩).prepared then
        headers.modify (fun h => { h with prepared := false }) self.currentBlock
      else headers
    let newCurrentBlock := self.currentBlock * self.blocksamples
    let f : R → R := match self.actionPtr with
      | none => AudioHandler.userProcess
      | some g => g
    match fillLoop w f timeStep newCurrentBlock 0 self.blocksamples
        { memory := memory, globalTimer := self.globalTimer, calls := [] } with
    | none => none
    | some st =>
      let headers := headers.modify (fun h => { h with prepared := true }) self.currentBlock
      if self.countBlocks = 0 then none
      else
        some ({ self with
                blockMemoryPtr := some st.memory
                waveHeaderPtr := some headers
                globalTimer := st.globalTimer
                currentBlock := (self.currentBlock + 1) % self.countBlocks }, st.calls)
  | _, _ => none


/-- The prologue of `mainThread`: `globalTimer = 0.0`. -/
def mainThreadStart {R : Type} [LinearOrderedField R] (self : AudioHandler R) : AudioHandler R :=
  { self with globalTimer := 0.0 }

/-- The quantisation the specification describes: scale by the full-scale value
`2 ^ (w - 1) - 1` of the `w`-bit sample format and truncate. -/
def quantizeSpec {R : Type} [LinearOrderedField R] [FloorRing R] (w : Nat) (x : R) : Int :=
  truncate (x * ((2 : R) ^ (w - 1) - 1))

/-! ## The free-block counter under interleaving -/

/-- Where the producer thread stands in the `while (isReady)` loop. -/
inductive ProducerAt
  | test
  | waiting
  | claim
  | fill
deriving DecidableEq

/-- The state shared by the producer and the completion callback:
`submitted` counts the blocks written to the device whose `WOM_DONE` has not
been delivered, `notifying` the callbacks that have run `freeBlocks++` and have
not yet run `notify_one`. -/
structure Ring where
  countBlocks : Nat
  freeBlocks : Nat
  producer : ProducerAt
  submitted : Nat
  notifying : Nat
deriving DecidableEq

/-- The atomic steps of the two contexts. -/
inductive Event
  | producer
  | done
  | notify
deriving DecidableEq

/-- The state a successful `create` leaves: `freeBlocks = countBlocks`, the
producer about to test `freeBlocks == 0`. -/
def Ring.created (countBlocks : Nat) : Ring :=
  { countBlocks := countBlocks, freeBlocks := countBlocks, producer := ProducerAt.test,
    submitted := 0, notifying := 0 }

/-- One atomic step; `none` when the step is not enabled.

* `producer` at `test` is `if (freeBlocks == 0)`: it enters `wait` or goes on to
  the decrement; at `waiting` it is blocked; at `claim` it runs `freeBlocks--` on
  the `unsigned int`; at `fill` it fills the block, writes it to the device
  and returns to the test.
* `done` is the delivery of `WOM_DONE` for a submitted block: `waveOutProc`
  runs `freeBlocks++`.
* `notify` is the `notify_one` of a callback that has incremented: a waiting
  producer resumes after `wait`, at the decrement. -/
def Ring.step : Event → Ring → Option Ring
  | Event.producer, r =>
    match r.producer with
    | ProducerAt.test =>
      if r.freeBlocks = 0 then some { r with producer := ProducerAt.waiting }
      else some { r with producer := ProducerAt.claim }
    | ProducerAt.waiting => none
    | ProducerAt.claim =>
      some { r with freeBlocks := (r.freeBlocks + UINT_MAX1 - 1) % UINT_MAX1
                    producer := ProducerAt.fill }
    | ProducerAt.fill =>
      some { r with submitted := r.submitted + 1, producer := ProducerAt.test }
  | Event.done, r =>
    if 0 < r.submitted then
      some { r with submitted := r.submitted - 1
                    freeBlocks := (r.freeBlocks + 1) % UINT_MAX1
                    notifying := r.notifying + 1 }
    else none
  | Event.notify, r =>
    if 0 < r.notifying then
      some { r with notifying := r.notifying - 1
                    producer := if r.producer = ProducerAt.waiting then ProducerAt.claim
                                else r.producer }
    else none

/-- A schedule run from a state: `none` as soon as a step is not enabled. -/
def Ring.run : List Event → Ring → Option Ring
  | [], r => some r
  | e :: es, r =>
    match Ring.step e r with
    | none => none
    | some r => Ring.run es r

/-- The schedule in which a completion callback is overtaken between its
`freeBlocks++` and its `notify_one`. -/
def overtakenNotify : List Event :=
  [Event.producer, Event.producer, Event.producer,
   Event.producer, Event.producer, Event.producer,
   Event.done,
   Event.producer, Event.producer, Event.producer,
   Event.producer,
   Event.notify]

/-- An object before `create`: its members hold whatever the storage held. -/
def rawObject (sampleRate blocksamples : Nat) : AudioHandler ℚ :=
  { actionPtr := none, sampleRate := sampleRate, channels := 0, countBlocks := 0,
    blocksamples := blocksamples, currentBlock := 0, blockMemoryPtr := none,
    waveHeaderPtr := none, hardwareDevices := none, thread := false, isReady := false,
    freeBlocks := 0, globalTimer := 0 }

/-- An audio subsystem with the single device "Speakers", which opens. -/
def speakersOnly : WaveOut :=
  { devices := ["Speakers"], waveOutOpen := fun _ => true, allocate := fun _ => true }

/-! ## The oscillator bank (main.cpp, lines 3-9 and 79-109)

The library functions `sin` and `asin` and the outcome of `rand()` are
parameters of the model; the theorems instantiate them with `Real.sin` and
`Real.arcsin`. -/

/-- The constant `OSCILATOR_SINE`. -/
def OSCILATOR_SINE : Int := 0

/-- The constant `OSCILATOR_SQUARE`. -/
def OSCILATOR_SQUARE : Int := 1

/-- The constant `OSCILATOR_TRIANGLE`. -/
def OSCILATOR_TRIANGLE : Int := 2

/-- The constant `OSCILATOR_SAW_ANALOG`. -/
def OSCILATOR_SAW_ANALOG : Int := 3

/-- The constant `OSCILATOR_SAW_DIGITAL`. -/
def OSCILATOR_SAW_DIGITAL : Int := 4

/-- The constant `OSCILATOR_NOISE`. -/
def OSCILATOR_NOISE : Int := 5

/-- The constant `PI`, defined as `3.1415` in the source. -/
def PI {R : Type} [LinearOrderedField R] : R := 3.1415

/-- The function `hzToCurcVelocity(hz)`. -/
def hzToCurcVelocity {R : Type} [LinearOrderedField R] (hz : R) : R := hz * 2.0 * PI

/-- The C library function `fmod(x, y)`: `x - y * n` with `n` the quotient
`x / y` truncated toward zero. -/
def fmod {R : Type} [LinearOrderedField R] [FloorRing R] (x y : R) : R :=
  x - y * ((truncate (x / y) : Int) : R)

/-- The loop `for (double n = 1.0; n < 40.0; n++) dOutput += sin(...) / n` of
the analog saw, run with at most `fuel` rounds. -/
def sawAnalogLoop {R : Type} [LinearOrderedField R] (sin : R → R) (hz time : R) :
    Nat → R → R → R
  | 0, _, dOutput => dOutput
  | fuel + 1, n, dOutput =>
    if n < 40.0 then
      sawAnalogLoop sin hz time fuel (n + 1)
        (dOutput + (sin (n * hzToCurcVelocity hz * time)) / n)
    else dOutput

/-- The function `oscilator(hz, time, type)`; `rnd` is the value of
`(double)rand() / (double)RAND_MAX` at the call.  The analog saw loop gets 40
rounds of fuel, one more than it uses. -/
def oscilator {R : Type} [LinearOrderedField R] [FloorRing R] (sin asin : R → R) (rnd : R)
    (hz time : R) (type : Int) : R :=
  if type = OSCILATOR_SINE then
    sin (hzToCurcVelocity hz * time)
  else if type = OSCILATOR_SQUARE then
    (if sin (hzToCurcVelocity hz * time) > 0 then 1.0 else -1.0)
  else if type = OSCILATOR_TRIANGLE then
    asin (sin (hzToCurcVelocity hz * time)) * (2.0 / PI)
  else if type = OSCILATOR_SAW_ANALOG then
    sawAnalogLoop sin hz time 40 1.0 0.0 * (2.0 / PI)
  else if type = OSCILATOR_SAW_DIGITAL then
    (2.0 / PI) * (hz * PI * fmod time (1.0 / hz) - (PI / 2.0))
  else if type = OSCILATOR_NOISE then
    2.0 * rnd - 1.0
  else 0.0


/-! ## Concrete inputs used by the evaluations -/

/-- An engine made by `create` on an object whose members `sampleRate` and
`blocksamples` happen to hold 44100 and 2, with two blocks of two 16-bit
samples and the constant synthesis function `v`. -/
def constantEngine (v : ℚ) : AudioHandler ℚ :=
  { mainThreadStart
      (AudioHandler.create 2 speakersOnly (rawObject 44100 2) "Speakers" 44100 1 2 2).2
    with actionPtr := some (fun _ => v) }

/-- The default envelope after `NoteOn(0.0)`. -/
def heldNote : ADSR ℚ := ADSR.NoteOn ADSR.init 0.0

/-- The default envelope after `NoteOn(0.0)` and `NoteOff(1.0)`. -/
def releasedNote : ADSR ℚ := ADSR.NoteOff (ADSR.NoteOn ADSR.init 0.0) 1.0

/-- An envelope held in its sustain phase whose sustain level, `0.00005`, lies
between zero and the floor `0.0001`. -/
def faintSustain : ADSR ℚ :=
  { attackTime := 1, decayTime := 1, sustainAmplitude := 0.00005, releaseTime := 1,
    startAmplitude := 1, triggerOffTime := 0, triggerOnTime := 0, isNoteOn := true }

/-- The default envelope with `startAmplitude = 0.0001`, after `NoteOn(0.0)`;
`attackTime` is the default `0.10`. -/
def faintStart : ADSR ℚ :=
  ADSR.NoteOn { (ADSR.init : ADSR ℚ) with startAmplitude := 0.0001 } 0.0

/-- The default envelope with `releaseTime = 0`: note off, released at time
`0`. -/
def zeroRelease : ADSR ℚ := { (ADSR.init : ADSR ℚ) with releaseTime := 0 }

/-! ## Theorems -/

/-! ### The clipper -/

/-- C5: for every sample and every `max ≥ 0`, `clip` is `min sample max` on
non-negative samples and `max sample (-max)` on negative ones; the result lies
in `[-max, max]`, is the sample itself when `|sample| ≤ max`, and `clip` is odd
in the sample. -/
theorem clip_spec {R : Type} [LinearOrderedField R] (sample max : R) (hmax : 0 ≤ max) :
    (0 ≤ sample → clip sample max = Min.min sample max) ∧
    (sample < 0 → clip sample max = Max.max sample (-max)) ∧
    (-max ≤ clip sample max ∧ clip sample max ≤ max) ∧
    (|sample| ≤ max → clip sample max = sample) ∧
    clip (-sample) max = -clip sample max := by
  refine ⟨?_, ?_, ?_, ?_, ?_⟩
  · intro h
    simp [clip, h]
  · intro h
    simp [clip, not_le.mpr h]
  · unfold clip
    split_ifs with h
    · exact ⟨le_min (by linarith) (by linarith), min_le_right _ _⟩
    · exact ⟨le_max_right _ _, max_le (by linarith [not_le.mp h]) (by linarith)⟩
  · intro h
    obtain ⟨h1, h2⟩ := abs_le.mp h
    unfold clip
    split_ifs
    · exact min_eq_left h2
    · exact max_eq_left h1
  · unfold clip
    rcases lt_trichotomy sample 0 with h | h | h
    · have h1 : -sample ≥ 0 := by linarith
      have h2 : ¬ sample ≥ 0 := not_le.mpr h
      rw [if_pos h1, if_neg h2, ← min_neg_neg, neg_neg]
    · subst h
      simp [hmax]
    · have h1 : ¬ -sample ≥ 0 := by
        intro hc
        linarith
      have h2 : sample ≥ 0 := le_of_lt h
      rw [if_neg h1, if_pos h2, max_neg_neg]

/-- C5 witness: the theorem at `sample = 3/2`, `max = 1` over the rationals. -/
theorem clip_spec_witness :
    (0 : ℚ) ≤ 1 ∧
    ((0 ≤ (3 / 2 : ℚ) → clip (3 / 2 : ℚ) 1 = Min.min (3 / 2 : ℚ) 1) ∧
     ((3 / 2 : ℚ) < 0 → clip (3 / 2 : ℚ) 1 = Max.max (3 / 2 : ℚ) (-1)) ∧
     (-1 ≤ clip (3 / 2 : ℚ) 1 ∧ clip (3 / 2 : ℚ) 1 ≤ 1) ∧
     (|(3 / 2 : ℚ)| ≤ 1 → clip (3 / 2 : ℚ) 1 = 3 / 2) ∧
     clip (-(3 / 2) : ℚ) 1 = -clip (3 / 2 : ℚ) 1) :=
  ⟨by norm_num, clip_spec (3 / 2 : ℚ) 1 (by norm_num)⟩

/-! ### The envelope -/

/-- The floor is monotone. -/
theorem snapFloor_mono {R : Type} [LinearOrderedField R] {a b : R} (h : a ≤ b) :
    snapFloor a ≤ snapFloor b := by
  unfold snapFloor
  have e : (0 : R) < 0.0001 := by norm_num
  split_ifs with h1 h2 h2
  · exact le_refl _
  · linarith [not_le.mp h2]
  · exact absurd (le_trans h h2) h1
  · exact h

/-- A floored value is zero or above the threshold. -/
theorem snapFloor_zero_or_gt {R : Type} [LinearOrderedField R] (a : R) :
    snapFloor a = 0 ∨ 0.0001 < snapFloor a := by
  unfold snapFloor
  split_ifs with h
  · exact Or.inl rfl
  · exact Or.inr (not_le.mp h)

/-- Attack phase: only the first of the three note-on tests fires. -/
theorem GetAmplitude_attack {R : Type} [LinearOrderedField R] (s : ADSR R) (t : R)
    (hon : s.isNoteOn = true)
    (hd : 0 < s.decayTime) (h : t - s.triggerOnTime ≤ s.attackTime) :
    s.GetAmplitude t = snapFloor ((t - s.triggerOnTime) / s.attackTime * s.startAmplitude) := by
  have h2 : ¬ (t - s.triggerOnTime > s.attackTime ∧
      t - s.triggerOnTime ≤ s.attackTime + s.decayTime) := fun hc => absurd h (not_le.mpr hc.1)
  have h3 : ¬ (t - s.triggerOnTime > s.attackTime + s.decayTime) := by
    intro hc
    linarith
  simp only [ADSR.GetAmplitude, snapFloor, hon, if_true, if_pos h, if_neg h2, if_neg h3]
  norm_num

/-- Decay phase: the second test fires and the third does not. -/
theorem GetAmplitude_decay {R : Type} [LinearOrderedField R] (s : ADSR R) (t : R)
    (hon : s.isNoteOn = true)
    (h1 : s.attackTime < t - s.triggerOnTime)
    (h2 : t - s.triggerOnTime ≤ s.attackTime + s.decayTime) :
    s.GetAmplitude t = snapFloor (s.startAmplitude +
      (t - s.triggerOnTime - s.attackTime) / s.decayTime
        * (s.sustainAmplitude - s.startAmplitude)) := by
  have h3 : ¬ (t - s.triggerOnTime > s.attackTime + s.decayTime) := not_lt.mpr h2
  have h4 : (t - s.triggerOnTime > s.attackTime ∧
      t - s.triggerOnTime ≤ s.attackTime + s.decayTime) := ⟨h1, h2⟩
  simp only [ADSR.GetAmplitude, snapFloor, hon, if_true, if_pos h4, if_neg h3]
  rw [add_comm]
  norm_num

/-- Sustain phase: the third test fires last and overwrites the amplitude. -/
theorem GetAmplitude_sustain {R : Type} [LinearOrderedField R] (s : ADSR R) (t : R)
    (hon : s.isNoteOn = true)
    (h : s.attackTime + s.decayTime < t - s.triggerOnTime) :
    s.GetAmplitude t = snapFloor s.sustainAmplitude := by
  have h3 : t - s.triggerOnTime > s.attackTime + s.decayTime := h
  simp only [ADSR.GetAmplitude, snapFloor, hon, if_true, if_pos h3]
  norm_num

/-- Release: the floored ramp from `sustainAmplitude` down, measured from
`triggerOffTime`. -/
theorem GetAmplitude_release {R : Type} [LinearOrderedField R] (s : ADSR R) (t : R)
    (hoff : s.isNoteOn = false) :
    s.GetAmplitude t =
      snapFloor (s.sustainAmplitude * (1 - (t - s.triggerOffTime) / s.releaseTime)) := by
  have e : (t - s.triggerOffTime) / s.releaseTime * (0.0 - s.sustainAmplitude)
        + s.sustainAmplitude
      = s.sustainAmplitude * (1 - (t - s.triggerOffTime) / s.releaseTime) := by
    norm_num
    ring
  simp only [ADSR.GetAmplitude, snapFloor, hoff, e]
  norm_num

/-- Whatever the state, the returned amplitude is zero or above the threshold. -/
theorem GetAmplitude_zero_or_gt {R : Type} [LinearOrderedField R] (s : ADSR R) (t : R) :
    s.GetAmplitude t = 0 ∨ 0.0001 < s.GetAmplitude t := by
  have key : ∀ a : R, (if a ≤ 0.0001 then (0.0 : R) else a) = 0 ∨
      0.0001 < (if a ≤ 0.0001 then (0.0 : R) else a) := by
    intro a
    split_ifs with h
    · left
      norm_num
    · exact Or.inr (not_le.mp h)
  exact key _

/-- Finite doubles subtract as the field does. -/
theorem Dbl.fin_sub {R : Type} [LinearOrderedField R] (a b : R) :
    (Dbl.fin a - Dbl.fin b : Dbl R) = Dbl.fin (a - b) := by
  show Dbl.add (Dbl.fin a) (Dbl.neg (Dbl.fin b)) = Dbl.fin (a - b)
  rw [Dbl.neg, Dbl.add, sub_eq_add_neg]

/-- Finite doubles add as the field does. -/
theorem Dbl.fin_add {R : Type} [LinearOrderedField R] (a b : R) :
    (Dbl.fin a + Dbl.fin b : Dbl R) = Dbl.fin (a + b) := rfl

/-- Finite doubles multiply as the field does. -/
theorem Dbl.fin_mul {R : Type} [LinearOrderedField R] (a b : R) :
    (Dbl.fin a * Dbl.fin b : Dbl R) = Dbl.fin (a * b) := rfl

/-- Finite doubles divide as the field does when the divisor is not zero. -/
theorem Dbl.fin_div {R : Type} [LinearOrderedField R] (a b : R) (hb : b ≠ 0) :
    (Dbl.fin a / Dbl.fin b : Dbl R) = Dbl.fin (a / b) := by
  show Dbl.div (Dbl.fin a) (Dbl.fin b) = Dbl.fin (a / b)
  rw [Dbl.div, if_neg hb]

/-- The quotient `0 / 0` is NaN. -/
theorem Dbl.zero_div_zero {R : Type} [LinearOrderedField R] :
    (Dbl.fin 0 / Dbl.fin 0 : Dbl R) = Dbl.nan := by
  show Dbl.div (Dbl.fin 0) (Dbl.fin 0) = Dbl.nan
  rw [Dbl.div, if_pos rfl, if_pos rfl]

/-- Finite doubles compare with `<=` as the field does. -/
theorem Dbl.fin_le {R : Type} [LinearOrderedField R] (a b : R) :
    (Dbl.fin a ≤ Dbl.fin b) ↔ a ≤ b := by
  show Dbl.ble (Dbl.fin a) (Dbl.fin b) = true ↔ a ≤ b
  rw [Dbl.ble, decide_eq_true_iff]

/-- Finite doubles compare with `<` as the field does. -/
theorem Dbl.fin_lt {R : Type} [LinearOrderedField R] (a b : R) :
    (Dbl.fin a < Dbl.fin b) ↔ a < b := by
  show Dbl.blt (Dbl.fin a) (Dbl.fin b) = true ↔ a < b
  rw [Dbl.blt, decide_eq_true_iff]

/-- A decimal literal read as a double is the finite value of the literal. -/
theorem Dbl.ofScientific_eq {R : Type} [LinearOrderedField R] (m : Nat) (s : Bool) (e : Nat) :
    (OfScientific.ofScientific m s e : Dbl R) = Dbl.fin (OfScientific.ofScientific m s e) := rfl

/-- Where the duration that divides is not zero (`attackTime` while the note is
on, `releaseTime` after note-off), `GetAmplitude` read over doubles returns the
finite value the field reading computes. -/
theorem GetAmplitude_toDbl {R : Type} [LinearOrderedField R] (s : ADSR R) (t : R)
    (hon : s.isNoteOn = true → s.attackTime ≠ 0)
    (hoff : s.isNoteOn = false → s.releaseTime ≠ 0) :
    s.toDbl.GetAmplitude (Dbl.fin t) = Dbl.fin (s.GetAmplitude t) := by
  cases hb : s.isNoteOn with
  | false =>
    have hr := hoff hb
    simp only [ADSR.GetAmplitude, ADSR.toDbl, hb, Dbl.ofScientific_eq, Dbl.fin_sub,
      Dbl.fin_div _ _ hr, Dbl.fin_mul, Dbl.fin_add, Dbl.fin_le, Bool.false_eq_true, if_false]
    split_ifs <;> rfl
  | true =>
    have ha := hon hb
    simp only [ADSR.GetAmplitude, ADSR.toDbl, hb, Dbl.ofScientific_eq, Dbl.fin_sub,
      Dbl.fin_div _ _ ha, Dbl.fin_mul, Dbl.fin_add, Dbl.fin_le, Dbl.fin_lt, gt_iff_lt, if_true]
    by_cases h2 : s.attackTime < t - s.triggerOnTime ∧
        t - s.triggerOnTime ≤ s.attackTime + s.decayTime
    · have hd : s.decayTime ≠ 0 := by
        intro h0
        rw [h0, add_zero] at h2
        exact absurd h2.2 (not_le.mpr h2.1)
      simp only [h2, Dbl.fin_div _ _ hd, Dbl.fin_mul, Dbl.fin_add, Dbl.fin_sub]
      split_ifs <;> simp only [Dbl.fin_le] at * <;> first | rfl | contradiction
    · simp only [h2]
      split_ifs <;> simp only [Dbl.fin_le] at * <;> first | rfl | contradiction

/-- NaN times anything is NaN. -/
theorem Dbl.nan_mul {R : Type} [LinearOrderedField R] (x : Dbl R) :
    (Dbl.nan * x : Dbl R) = Dbl.nan := by
  cases x <;> rfl

/-- NaN plus anything is NaN. -/
theorem Dbl.nan_add {R : Type} [LinearOrderedField R] (x : Dbl R) :
    (Dbl.nan + x : Dbl R) = Dbl.nan := by
  cases x <;> rfl

/-- The test `NaN <= x` is false. -/
theorem Dbl.not_nan_le {R : Type} [LinearOrderedField R] (x : Dbl R) :
    ¬ ((Dbl.nan : Dbl R) ≤ x) := by
  show ¬ (Dbl.ble Dbl.nan x = true)
  cases x <;> simp [Dbl.ble]

/-- The test `x < NaN` is false. -/
theorem Dbl.not_lt_nan {R : Type} [LinearOrderedField R] (x : Dbl R) :
    ¬ (x < (Dbl.nan : Dbl R)) := by
  show ¬ (Dbl.blt x Dbl.nan = true)
  cases x <;> simp [Dbl.blt]

/-- C6, counterexample: the envelope `faintStart` is held (`isNoteOn`,
`attackTime = 0.10 > 0`, `decayTime > 0`, `NoteOn(0.0)` done) with
`startAmplitude = 0.0001`; `GetAmplitude` is `0` at `t = 0.05` and at
`t = 0.10`, not `0.5 * startAmplitude` and `startAmplitude`. -/
theorem GetAmplitude_scenario_below_floor :
    faintStart.isNoteOn = true ∧ 0 < faintStart.attackTime ∧ 0 < faintStart.decayTime ∧
    faintStart.attackTime = 0.10 ∧ faintStart.triggerOnTime = 0.0 ∧
    faintStart.GetAmplitude 0.05 = 0 ∧
    faintStart.GetAmplitude 0.05 ≠ 0.5 * faintStart.startAmplitude ∧
    faintStart.GetAmplitude 0.10 = 0 ∧
    faintStart.GetAmplitude 0.10 ≠ faintStart.startAmplitude := by
  have h1 : faintStart.GetAmplitude 0.05 = 0 := by
    rw [GetAmplitude_attack faintStart 0.05 rfl
      (by norm_num [faintStart, ADSR.NoteOn, ADSR.init])
      (by norm_num [faintStart, ADSR.NoteOn, ADSR.init])]
    norm_num [snapFloor, faintStart, ADSR.NoteOn, ADSR.init]
  have h2 : faintStart.GetAmplitude 0.10 = 0 := by
    rw [GetAmplitude_attack faintStart 0.10 rfl
      (by norm_num [faintStart, ADSR.NoteOn, ADSR.init])
      (by norm_num [faintStart, ADSR.NoteOn, ADSR.init])]
    norm_num [snapFloor, faintStart, ADSR.NoteOn, ADSR.init]
  refine ⟨rfl, ?_, ?_, ?_, ?_, h1, ?_, h2, ?_⟩
  · norm_num [faintStart, ADSR.NoteOn, ADSR.init]
  · norm_num [faintStart, ADSR.NoteOn, ADSR.init]
  · norm_num [faintStart, ADSR.NoteOn, ADSR.init]
  · norm_num [faintStart, ADSR.NoteOn, ADSR.init]
  · rw [h1]
    norm_num [faintStart, ADSR.NoteOn, ADSR.init]
  · rw [h2]
    norm_num [faintStart, ADSR.NoteOn, ADSR.init]

/-- C6, amended: for a held note (`isNoteOn`, `attackTime > 0`, `decayTime > 0`)
and `lifeTime = t - triggerOnTime`, `GetAmplitude t` is the floored value of the
attack ramp `(lifeTime / attackTime) * startAmplitude` when
`lifeTime ≤ attackTime`, of the decay ramp
`startAmplitude + ((lifeTime - attackTime) / decayTime) * (sustainAmplitude - startAmplitude)`
when `attackTime < lifeTime ≤ attackTime + decayTime`, and of `sustainAmplitude`
beyond.  In particular, after `NoteOn(0.0)` with `attackTime = 0.10` the
amplitude at `t = 0.05` is the floored `0.5 * startAmplitude` and at `t = 0.10`
the floored `startAmplitude`: the values `0.5 * startAmplitude` and
`startAmplitude` themselves when they exceed `0.0001`, as they do for the
constructor default `startAmplitude = 1.0`, and `0` otherwise. -/
theorem GetAmplitude_noteOn_spec {R : Type} [LinearOrderedField R] (s : ADSR R) (t : R)
    (hon : s.isNoteOn = true)
    (_ha : 0 < s.attackTime) (hd : 0 < s.decayTime) :
    (t - s.triggerOnTime ≤ s.attackTime →
      s.GetAmplitude t
        = snapFloor ((t - s.triggerOnTime) / s.attackTime * s.startAmplitude)) ∧
    (s.attackTime < t - s.triggerOnTime ∧ t - s.triggerOnTime ≤ s.attackTime + s.decayTime →
      s.GetAmplitude t
        = snapFloor (s.startAmplitude + (t - s.triggerOnTime - s.attackTime) / s.decayTime
            * (s.sustainAmplitude - s.startAmplitude))) ∧
    (s.attackTime + s.decayTime < t - s.triggerOnTime →
      s.GetAmplitude t = snapFloor s.sustainAmplitude) ∧
    (s.attackTime = 0.10 →
      (s.NoteOn 0.0).GetAmplitude 0.05 = snapFloor (0.5 * s.startAmplitude) ∧
      (s.NoteOn 0.0).GetAmplitude 0.10 = snapFloor s.startAmplitude ∧
      (0.0001 < 0.5 * s.startAmplitude →
        (s.NoteOn 0.0).GetAmplitude 0.05 = 0.5 * s.startAmplitude) ∧
      (0.0001 < s.startAmplitude →
        (s.NoteOn 0.0).GetAmplitude 0.10 = s.startAmplitude)) ∧
    ((ADSR.init.NoteOn 0.0).GetAmplitude (0.05 : R)
        = 0.5 * (ADSR.init : ADSR R).startAmplitude ∧
      (ADSR.init.NoteOn 0.0).GetAmplitude (0.10 : R)
        = (ADSR.init : ADSR R).startAmplitude) := by
  refine ⟨GetAmplitude_attack s t hon hd, fun h => GetAmplitude_decay s t hon h.1 h.2,
    GetAmplitude_sustain s t hon, ?_, ?_⟩
  · intro hat
    have e1 : (s.NoteOn 0.0).GetAmplitude 0.05 = snapFloor (0.5 * s.startAmplitude) := by
      rw [GetAmplitude_attack (s.NoteOn 0.0) 0.05 rfl hd
        (by simp only [ADSR.NoteOn, hat]; norm_num)]
      simp only [ADSR.NoteOn, hat]
      norm_num
    have e2 : (s.NoteOn 0.0).GetAmplitude 0.10 = snapFloor s.startAmplitude := by
      rw [GetAmplitude_attack (s.NoteOn 0.0) 0.10 rfl hd
        (by simp only [ADSR.NoteOn, hat]; norm_num)]
      simp only [ADSR.NoteOn, hat]
      norm_num
    refine ⟨e1, e2, ?_, ?_⟩
    · intro h
      rw [e1, snapFloor, if_neg (not_le.mpr h)]
    · intro h
      rw [e2, snapFloor, if_neg (not_le.mpr h)]
  · constructor
    · rw [GetAmplitude_attack _ _ rfl (by simp only [ADSR.NoteOn, ADSR.init]; norm_num)
        (by simp only [ADSR.NoteOn, ADSR.init]; norm_num)]
      simp only [ADSR.NoteOn, ADSR.init, snapFloor]
      norm_num
    · rw [GetAmplitude_attack _ _ rfl (by simp only [ADSR.NoteOn, ADSR.init]; norm_num)
        (by simp only [ADSR.NoteOn, ADSR.init]; norm_num)]
      simp only [ADSR.NoteOn, ADSR.init, snapFloor]
      norm_num

/-- C6 witness: the default envelope after `NoteOn(0.0)`, sampled at
`t = 0.05`, is on the attack ramp. -/
theorem GetAmplitude_noteOn_spec_witness :
    heldNote.isNoteOn = true ∧ 0 < heldNote.attackTime ∧ 0 < heldNote.decayTime ∧
    (0.05 - heldNote.triggerOnTime ≤ heldNote.attackTime) ∧
    heldNote.GetAmplitude 0.05
      = snapFloor ((0.05 - heldNote.triggerOnTime) / heldNote.attackTime
          * heldNote.startAmplitude) :=
  ⟨rfl, by norm_num [heldNote, ADSR.NoteOn, ADSR.init],
    by norm_num [heldNote, ADSR.NoteOn, ADSR.init],
    by norm_num [heldNote, ADSR.NoteOn, ADSR.init],
    (GetAmplitude_noteOn_spec heldNote 0.05 rfl
      (by norm_num [heldNote, ADSR.NoteOn, ADSR.init])
      (by norm_num [heldNote, ADSR.NoteOn, ADSR.init])).1
      (by norm_num [heldNote, ADSR.NoteOn, ADSR.init])⟩

/-- C7, counterexample: for the released envelope `zeroRelease`, whose
`releaseTime` is `0`, at `t = triggerOffTime = 0` the release ramp divides `0`
by `0`; the amplitude is NaN, the test `amplitude <= 0.0001` is false, and
`GetAmplitude` returns NaN, which is neither `0` nor greater than `0.0001`. -/
theorem GetAmplitude_zero_release_nan :
    zeroRelease.isNoteOn = false ∧ zeroRelease.releaseTime = 0 ∧
    zeroRelease.triggerOffTime = 0 ∧
    zeroRelease.toDbl.GetAmplitude (Dbl.fin 0) = Dbl.nan ∧
    ¬ (zeroRelease.toDbl.GetAmplitude (Dbl.fin 0) = 0.0 ∨
       0.0001 < zeroRelease.toDbl.GetAmplitude (Dbl.fin 0)) := by
  have h : zeroRelease.toDbl.GetAmplitude (Dbl.fin 0) = Dbl.nan := by
    have e1 : zeroRelease.toDbl.isNoteOn = false := rfl
    have e2 : zeroRelease.toDbl.triggerOffTime = Dbl.fin 0 := by
      simp only [zeroRelease, ADSR.toDbl, ADSR.init]
      norm_num
    have e3 : zeroRelease.toDbl.releaseTime = Dbl.fin 0 := rfl
    simp only [ADSR.GetAmplitude, e1, e2, e3, Dbl.fin_sub, sub_self, Dbl.zero_div_zero,
      Dbl.nan_mul, Dbl.nan_add, Dbl.not_nan_le, Bool.false_eq_true, if_false]
  refine ⟨rfl, rfl, ?_, h, ?_⟩
  · norm_num [zeroRelease, ADSR.init]
  · rw [h]
    intro hc
    rcases hc with hc | hc
    · exact Dbl.noConfusion hc
    · exact Dbl.not_lt_nan _ hc

/-- C7, amended: for a released note (`isNoteOn = false`, `releaseTime > 0`,
`sustainAmplitude ≥ 0`) and
`r = sustainAmplitude * (1 - (t - triggerOffTime) / releaseTime)`,
`GetAmplitude t`, read over doubles, is the finite value `r` when `r > 0.0001`
and `0` otherwise, and it is `0` for every `t ≥ triggerOffTime + releaseTime`;
and for every envelope state in which the duration that divides is not zero
(`attackTime` while the note is on, `releaseTime` after note-off) and every
time, the returned amplitude is a finite value that is either `0` or greater
than `0.0001`. -/
theorem GetAmplitude_noteOff_spec {R : Type} [LinearOrderedField R] (s : ADSR R) (t : R)
    (hoff : s.isNoteOn = false)
    (hr : 0 < s.releaseTime) (hs : 0 ≤ s.sustainAmplitude) :
    (0.0001 < s.sustainAmplitude * (1 - (t - s.triggerOffTime) / s.releaseTime) →
      s.toDbl.GetAmplitude (Dbl.fin t)
        = Dbl.fin (s.sustainAmplitude * (1 - (t - s.triggerOffTime) / s.releaseTime))) ∧
    (¬ 0.0001 < s.sustainAmplitude * (1 - (t - s.triggerOffTime) / s.releaseTime) →
      s.toDbl.GetAmplitude (Dbl.fin t) = Dbl.fin 0) ∧
    (s.triggerOffTime + s.releaseTime ≤ t → s.toDbl.GetAmplitude (Dbl.fin t) = Dbl.fin 0) ∧
    (∀ (e : ADSR R) (u : R),
      (e.isNoteOn = true → e.attackTime ≠ 0) → (e.isNoteOn = false → e.releaseTime ≠ 0) →
      ∃ a : R, e.toDbl.GetAmplitude (Dbl.fin u) = Dbl.fin a ∧ (a = 0 ∨ 0.0001 < a)) := by
  have hd : s.toDbl.GetAmplitude (Dbl.fin t) = Dbl.fin (s.GetAmplitude t) :=
    GetAmplitude_toDbl s t (fun h => by rw [hoff] at h; exact absurd h (by decide))
      (fun _ => ne_of_gt hr)
  refine ⟨?_, ?_, ?_, ?_⟩
  · intro h
    rw [hd, GetAmplitude_release s t hoff, snapFloor, if_neg (not_le.mpr h)]
  · intro h
    rw [hd, GetAmplitude_release s t hoff, snapFloor, if_pos (not_lt.mp h)]
  · intro h
    have h1 : 1 ≤ (t - s.triggerOffTime) / s.releaseTime := by
      rw [le_div_iff₀ hr]
      linarith
    have h2 : s.sustainAmplitude * (1 - (t - s.triggerOffTime) / s.releaseTime) ≤ 0 :=
      mul_nonpos_of_nonneg_of_nonpos hs (by linarith)
    rw [hd, GetAmplitude_release s t hoff, snapFloor, if_pos (le_trans h2 (by norm_num))]
  · intro e u hon hoff'
    exact ⟨e.GetAmplitude u, GetAmplitude_toDbl e u hon hoff', GetAmplitude_zero_or_gt e u⟩

/-- C7 witness: the default envelope released at `t = 1.0`, sampled at
`t = 1.1`, is half way down the release ramp. -/
theorem GetAmplitude_noteOff_spec_witness :
    releasedNote.isNoteOn = false ∧ 0 < releasedNote.releaseTime ∧
    0 ≤ releasedNote.sustainAmplitude ∧
    releasedNote.toDbl.GetAmplitude (Dbl.fin 1.1)
      = Dbl.fin (releasedNote.sustainAmplitude
          * (1 - (1.1 - releasedNote.triggerOffTime) / releasedNote.releaseTime)) :=
  ⟨rfl, by norm_num [releasedNote, ADSR.NoteOff, ADSR.NoteOn, ADSR.init],
    by norm_num [releasedNote, ADSR.NoteOff, ADSR.NoteOn, ADSR.init],
    (GetAmplitude_noteOff_spec releasedNote 1.1 rfl
      (by norm_num [releasedNote, ADSR.NoteOff, ADSR.NoteOn, ADSR.init])
      (by norm_num [releasedNote, ADSR.NoteOff, ADSR.NoteOn, ADSR.init])).1
      (by norm_num [releasedNote, ADSR.NoteOff, ADSR.NoteOn, ADSR.init])⟩

/-- C8, counterexample: the envelope `faintSustain` meets every premise of the
claim (`attackTime, decayTime, releaseTime > 0`,
`0 ≤ sustainAmplitude ≤ startAmplitude`, note on, `lifeTime = 3` beyond
`attackTime + decayTime = 2`), yet `GetAmplitude 3` is `0` and not
`sustainAmplitude = 0.00005`. -/
theorem GetAmplitude_sustain_below_floor :
    0 < faintSustain.attackTime ∧ 0 < faintSustain.decayTime ∧
    0 < faintSustain.releaseTime ∧ 0 ≤ faintSustain.sustainAmplitude ∧
    faintSustain.sustainAmplitude ≤ faintSustain.startAmplitude ∧
    faintSustain.isNoteOn = true ∧
    faintSustain.attackTime + faintSustain.decayTime < 3 - faintSustain.triggerOnTime ∧
    faintSustain.GetAmplitude 3 = 0 ∧
    faintSustain.GetAmplitude 3 ≠ faintSustain.sustainAmplitude := by
  have h : faintSustain.GetAmplitude 3 = 0 := by
    rw [GetAmplitude_sustain faintSustain 3 rfl (by norm_num [faintSustain])]
    norm_num [snapFloor, faintSustain]
  refine ⟨?_, ?_, ?_, ?_, ?_, rfl, ?_, h, ?_⟩
  · norm_num [faintSustain]
  · norm_num [faintSustain]
  · norm_num [faintSustain]
  · norm_num [faintSustain]
  · norm_num [faintSustain]
  · norm_num [faintSustain]
  · rw [h]
    norm_num [faintSustain]

/-- C8, amended: for every envelope with `attackTime, decayTime, releaseTime > 0`
and `0 ≤ sustainAmplitude ≤ startAmplitude`, and all times `t1 ≤ t2`: while the
note is on, `GetAmplitude t1 ≤ GetAmplitude t2` when both life times lie in
`[0, attackTime]`, `GetAmplitude t1 ≥ GetAmplitude t2` when both lie in
`(attackTime, attackTime + decayTime]`, and beyond `attackTime + decayTime` the
amplitude is constant at the floored sustain level, which is `sustainAmplitude`
whenever `sustainAmplitude > 0.0001` (and `0` otherwise); after note-off
`GetAmplitude t1 ≥ GetAmplitude t2` for `triggerOffTime ≤ t1 ≤ t2`, and the
amplitude is `0` once the release ramp is at `0.0001` or below. -/
theorem GetAmplitude_monotone {R : Type} [LinearOrderedField R] (s : ADSR R) (t1 t2 : R)
    (ha : 0 < s.attackTime) (hd : 0 < s.decayTime) (hr : 0 < s.releaseTime)
    (hs0 : 0 ≤ s.sustainAmplitude) (hs1 : s.sustainAmplitude ≤ s.startAmplitude)
    (h12 : t1 ≤ t2) :
    (s.isNoteOn = true → 0 ≤ t1 - s.triggerOnTime → t2 - s.triggerOnTime ≤ s.attackTime →
      s.GetAmplitude t1 ≤ s.GetAmplitude t2) ∧
    (s.isNoteOn = true → s.attackTime < t1 - s.triggerOnTime →
      t2 - s.triggerOnTime ≤ s.attackTime + s.decayTime →
      s.GetAmplitude t2 ≤ s.GetAmplitude t1) ∧
    (s.isNoteOn = true → s.attackTime + s.decayTime < t1 - s.triggerOnTime →
      s.GetAmplitude t1 = snapFloor s.sustainAmplitude ∧
      s.GetAmplitude t2 = snapFloor s.sustainAmplitude ∧
      (0.0001 < s.sustainAmplitude →
        s.GetAmplitude t1 = s.sustainAmplitude ∧ s.GetAmplitude t2 = s.sustainAmplitude) ∧
      (s.sustainAmplitude ≤ 0.0001 → s.GetAmplitude t1 = 0 ∧ s.GetAmplitude t2 = 0)) ∧
    (s.isNoteOn = false → s.triggerOffTime ≤ t1 →
      s.GetAmplitude t2 ≤ s.GetAmplitude t1 ∧
      (s.sustainAmplitude * (1 - (t2 - s.triggerOffTime) / s.releaseTime) ≤ 0.0001 →
        s.GetAmplitude t2 = 0)) := by
  refine ⟨?_, ?_, ?_, ?_⟩
  · intro hon _ h2
    rw [GetAmplitude_attack s t1 hon hd (by linarith), GetAmplitude_attack s t2 hon hd h2]
    apply snapFloor_mono
    apply mul_le_mul_of_nonneg_right _ (le_trans hs0 hs1)
    exact div_le_div_of_nonneg_right (by linarith) (le_of_lt ha)
  · intro hon h1 h2
    rw [GetAmplitude_decay s t1 hon h1 (by linarith),
      GetAmplitude_decay s t2 hon (by linarith) h2]
    apply snapFloor_mono
    have e : (t1 - s.triggerOnTime - s.attackTime) / s.decayTime
        ≤ (t2 - s.triggerOnTime - s.attackTime) / s.decayTime :=
      div_le_div_of_nonneg_right (by linarith) (le_of_lt hd)
    have hneg : s.sustainAmplitude - s.startAmplitude ≤ 0 := by linarith
    have := mul_le_mul_of_nonpos_right e hneg
    linarith
  · intro hon h1
    have e1 := GetAmplitude_sustain s t1 hon h1
    have e2 := GetAmplitude_sustain s t2 hon (by linarith)
    refine ⟨e1, e2, ?_, ?_⟩
    · intro h
      rw [e1, e2, snapFloor, if_neg (not_le.mpr h)]
      exact ⟨rfl, rfl⟩
    · intro h
      rw [e1, e2, snapFloor, if_pos h]
      exact ⟨rfl, rfl⟩
  · intro hoff _
    rw [GetAmplitude_release s t1 hoff, GetAmplitude_release s t2 hoff]
    refine ⟨?_, ?_⟩
    · apply snapFloor_mono
      apply mul_le_mul_of_nonneg_left _ hs0
      have e : (t1 - s.triggerOffTime) / s.releaseTime
          ≤ (t2 - s.triggerOffTime) / s.releaseTime :=
        div_le_div_of_nonneg_right (by linarith) (le_of_lt hr)
      linarith
    · intro h
      rw [snapFloor, if_pos h]

/-- C8 witness: the default envelope after `NoteOn(0.0)`, at `t1 = 0.02` and
`t2 = 0.05` on the attack ramp. -/
theorem GetAmplitude_monotone_witness :
    0 < heldNote.attackTime ∧ 0 < heldNote.decayTime ∧ 0 < heldNote.releaseTime ∧
    0 ≤ heldNote.sustainAmplitude ∧ heldNote.sustainAmplitude ≤ heldNote.startAmplitude ∧
    (0.02 : ℚ) ≤ 0.05 ∧
    heldNote.GetAmplitude 0.02 ≤ heldNote.GetAmplitude 0.05 :=
  ⟨by norm_num [heldNote, ADSR.NoteOn, ADSR.init],
    by norm_num [heldNote, ADSR.NoteOn, ADSR.init],
    by norm_num [heldNote, ADSR.NoteOn, ADSR.init],
    by norm_num [heldNote, ADSR.NoteOn, ADSR.init],
    by norm_num [heldNote, ADSR.NoteOn, ADSR.init],
    by norm_num,
    (GetAmplitude_monotone heldNote 0.02 0.05
      (by norm_num [heldNote, ADSR.NoteOn, ADSR.init])
      (by norm_num [heldNote, ADSR.NoteOn, ADSR.init])
      (by norm_num [heldNote, ADSR.NoteOn, ADSR.init])
      (by norm_num [heldNote, ADSR.NoteOn, ADSR.init])
      (by norm_num [heldNote, ADSR.NoteOn, ADSR.init])
      (by norm_num)).1 rfl
      (by norm_num [heldNote, ADSR.NoteOn, ADSR.init])
      (by norm_num [heldNote, ADSR.NoteOn, ADSR.init])⟩

/-- C9: `NoteOff(t1)` followed by `NoteOff(t2)` leaves exactly the state of
`NoteOff(t2)` alone, for all `t1` and `t2` (so in particular for `t1 ≤ t2`), with
`triggerOffTime = t2` and `isNoteOn = false`; `NoteOn(t)` changes only
`triggerOnTime` and `isNoteOn`, `NoteOff(t)` only `triggerOffTime` and
`isNoteOn`, and each leaves the five shape parameters and the other trigger
time as they were. -/
theorem NoteOff_overwrite {R : Type} (s : ADSR R) (t1 t2 t : R) :
    (s.NoteOff t1).NoteOff t2 = s.NoteOff t2 ∧
    ((s.NoteOff t2).triggerOffTime = t2 ∧ (s.NoteOff t2).isNoteOn = false) ∧
    ((s.NoteOn t).triggerOnTime = t ∧ (s.NoteOn t).isNoteOn = true ∧
      (s.NoteOn t).attackTime = s.attackTime ∧ (s.NoteOn t).decayTime = s.decayTime ∧
      (s.NoteOn t).sustainAmplitude = s.sustainAmplitude ∧
      (s.NoteOn t).releaseTime = s.releaseTime ∧
      (s.NoteOn t).startAmplitude = s.startAmplitude ∧
      (s.NoteOn t).triggerOffTime = s.triggerOffTime) ∧
    ((s.NoteOff t).triggerOffTime = t ∧ (s.NoteOff t).isNoteOn = false ∧
      (s.NoteOff t).attackTime = s.attackTime ∧ (s.NoteOff t).decayTime = s.decayTime ∧
      (s.NoteOff t).sustainAmplitude = s.sustainAmplitude ∧
      (s.NoteOff t).releaseTime = s.releaseTime ∧
      (s.NoteOff t).startAmplitude = s.startAmplitude ∧
      (s.NoteOff t).triggerOnTime = s.triggerOnTime) :=
  ⟨rfl, ⟨rfl, rfl⟩, ⟨rfl, rfl, rfl, rfl, rfl, rfl, rfl, rfl⟩,
    ⟨rfl, rfl, rfl, rfl, rfl, rfl, rfl, rfl⟩⟩

/-! ### The engine -/

/-- Truncation of a non-negative value is its floor. -/
theorem truncate_eq_floor {R : Type} [LinearOrderedField R] [FloorRing R] (x : R) (z : Int)
    (h0 : 0 ≤ x) (h1 : (z : R) ≤ x) (h2 : x < z + 1) : truncate x = z := by
  rw [truncate, if_pos h0, Int.floor_eq_iff]
  exact ⟨h1, h2⟩

/-- The 16-bit conversion of the clipped and scaled value `3 / 2 ^ 64`. -/
theorem toSample_small : toSample 16 (clip ((3 : ℚ) / 2 ^ 64) 1.0 * maxSample) = some 1 := by
  have hc : clip ((3 : ℚ) / 2 ^ 64) 1.0 = 3 / 2 ^ 64 := by
    norm_num [clip]
  have ht : truncate ((3 : ℚ) / 2 ^ 64 * maxSample) = 1 := by
    apply truncate_eq_floor <;> norm_num [maxSample]
  rw [toSample, hc, ht]
  decide

/-- The clipped and scaled value `1.0` has no 16-bit conversion. -/
theorem toSample_full : toSample 16 (clip (1 : ℚ) 1.0 * maxSample) = none := by
  have hc : clip (1 : ℚ) 1.0 = 1 := by
    norm_num [clip]
  have ht : truncate ((1 : ℚ) * maxSample) = 2 ^ 63 - 1 := by
    apply truncate_eq_floor <;> norm_num [maxSample]
  rw [toSample, hc, ht]
  decide

/-- The inner loop leaves every cell below its first index untouched and keeps
the length of the block memory. -/
theorem fillLoop_frame {R : Type} [LinearOrderedField R] [FloorRing R] (w : Nat) (f : R → R)
    (timeStep : R) (newCurrentBlock : Nat) :
    ∀ (remaining n : Nat) (st st' : FillState R),
      fillLoop w f timeStep newCurrentBlock n remaining st = some st' →
      st'.memory.length = st.memory.length ∧
      ∀ j, j < newCurrentBlock + n → st'.memory[j]? = st.memory[j]? := by
  intro remaining
  induction remaining with
  | zero =>
    intro n st st' h
    simp only [fillLoop, Option.some.injEq] at h
    subst h
    exact ⟨rfl, fun _ _ => rfl⟩
  | succ k ih =>
    intro n st st' h
    rw [fillLoop] at h
    cases hs : toSample w (clip (f st.globalTimer) 1.0 * maxSample) with
    | none => simp [hs] at h
    | some newSample =>
      simp only [hs] at h
      split_ifs at h with hlen
      obtain ⟨h1, h2⟩ := ih (n + 1) _ st' h
      refine ⟨by simpa using h1, ?_⟩
      intro j hj
      rw [h2 j (by omega)]
      simp only []
      rw [List.getElem?_set_ne (by omega)]

/-- What the inner loop of `mainThread` does when it completes: it advances the
timer by `remaining * timeStep`, calls the synthesis function once per round at
the successive timer values, and stores at index `newCurrentBlock + n + i` the
conversion of `clip(f(t_i), 1.0) * maxSample`, where `t_i` is the timer value of
round `i` and `maxSample = 2 ^ 63 - 1`. -/
theorem fillLoop_spec {R : Type} [LinearOrderedField R] [FloorRing R] (w : Nat) (f : R → R)
    (timeStep : R) (newCurrentBlock : Nat) :
    ∀ (remaining n : Nat) (st st' : FillState R),
      fillLoop w f timeStep newCurrentBlock n remaining st = some st' →
      st'.globalTimer = st.globalTimer + remaining * timeStep ∧
      st'.calls = st.calls
        ++ (List.range remaining).map (fun (i : Nat) => st.globalTimer + (i : R) * timeStep) ∧
      ∀ i, i < remaining →
        (st'.memory[newCurrentBlock + n + i]?).map some
          = some (toSample w (clip (f (st.globalTimer + i * timeStep)) 1.0 * maxSample)) := by
  intro remaining
  induction remaining with
  | zero =>
    intro n st st' h
    simp only [fillLoop, Option.some.injEq] at h
    subst h
    simp
  | succ k ih =>
    intro n st st' h
    have hframe := fillLoop_frame w f timeStep newCurrentBlock (k + 1) n st st' h
    rw [fillLoop] at h
    cases hs : toSample w (clip (f st.globalTimer) 1.0 * maxSample) with
    | none => simp [hs] at h
    | some newSample =>
      simp only [hs] at h
      split_ifs at h with hlen
      obtain ⟨h1, h2, h3⟩ := ih (n + 1) _ st' h
      have hfr := fillLoop_frame w f timeStep newCurrentBlock k (n + 1) _ st' h
      simp only [] at h1 h2 h3 hfr
      refine ⟨?_, ?_, ?_⟩
      · rw [h1]
        push_cast
        ring
      · rw [h2, List.range_succ_eq_map, List.map_cons, List.map_map, List.append_assoc]
        simp only [List.singleton_append, Nat.cast_zero, zero_mul, add_zero, List.cons.injEq,
          true_and]
        congr 2
        apply List.map_congr_left
        intro i _
        simp only [Function.comp, Nat.cast_succ]
        ring
      · intro i hi
        cases i with
        | zero =>
          rw [hfr.2 (newCurrentBlock + n + 0) (by omega)]
          simp [List.getElem?_set_self, hlen, hs]
        | succ i =>
          have := h3 i (by omega)
          rw [show newCurrentBlock + n + (i + 1) = newCurrentBlock + (n + 1) + i by omega, this]
          congr 4
          push_cast
          ring_nf

/-- The inner loop completes when every conversion is defined and the rounds
stay inside the block memory. -/
theorem fillLoop_isSome {R : Type} [LinearOrderedField R] [FloorRing R] (w : Nat) (f : R → R)
    (timeStep : R) (newCurrentBlock : Nat)
    (hconv : ∀ t, (toSample w (clip (f t) 1.0 * maxSample)).isSome = true) :
    ∀ (remaining n : Nat) (st : FillState R),
      newCurrentBlock + n + remaining ≤ st.memory.length →
      (fillLoop w f timeStep newCurrentBlock n remaining st).isSome = true := by
  intro remaining
  induction remaining with
  | zero =>
    intro n st _
    rfl
  | succ k ih =>
    intro n st hlen
    rw [fillLoop]
    cases hs : toSample w (clip (f st.globalTimer) 1.0 * maxSample) with
    | none =>
      have := hconv st.globalTimer
      rw [hs] at this
      exact absurd this (by simp)
    | some newSample =>
      simp only []
      rw [if_pos (by omega)]
      apply ih
      simp only [List.length_set]
      omega

/-- One round of the producer loop completes when the block memory and the
headers exist, `countBlocks` is not zero, the current block lies inside the
block memory and every conversion is defined. -/
theorem mainThreadRound_isSome {R : Type} [LinearOrderedField R] [FloorRing R] (w : Nat)
    (self : AudioHandler R) (memory : List Int) (headers : List WaveHdr)
    (hm : self.blockMemoryPtr = some memory) (hh : self.waveHeaderPtr = some headers)
    (hc : self.countBlocks ≠ 0)
    (hlen : self.currentBlock * self.blocksamples + self.blocksamples ≤ memory.length)
    (hconv : ∀ t, (toSample w
      (clip ((self.actionPtr.getD AudioHandler.userProcess) t) 1.0 * maxSample)).isSome = true) :
    (mainThreadRound w self).isSome = true := by
  have hf : (match self.actionPtr with
      | none => AudioHandler.userProcess
      | some g => g) = self.actionPtr.getD AudioHandler.userProcess := by
    cases self.actionPtr <;> rfl
  have hl := fillLoop_isSome w (self.actionPtr.getD AudioHandler.userProcess)
    (1.0 / (self.sampleRate : R)) (self.currentBlock * self.blocksamples) hconv
    self.blocksamples 0 { memory := memory, globalTimer := self.globalTimer, calls := [] }
    (by simpa using hlen)
  obtain ⟨st, hst⟩ := Option.isSome_iff_exists.mp hl
  unfold mainThreadRound
  simp only [hm, hh, hf, hst, if_neg hc]
  rfl

/-- What one round of the producer loop does when it completes: it reads the
members `sampleRate` and `blocksamples` of the object, calls the synthesis
function `blocksamples` times at the successive timer values, advances the
timer by `blocksamples * (1 / sampleRate)`, and stores in the current block the
conversions of `clip(f(t_i), 1.0) * maxSample` with `maxSample = 2 ^ 63 - 1`. -/
theorem mainThreadRound_spec {R : Type} [LinearOrderedField R] [FloorRing R] (w : Nat)
    (self self' : AudioHandler R) (calls : List R)
    (h : mainThreadRound w self = some (self', calls)) :
    calls = (List.range self.blocksamples).map
      (fun (i : Nat) => self.globalTimer + (i : R) * (1.0 / (self.sampleRate : R))) ∧
    calls.length = self.blocksamples ∧
    self'.globalTimer
      = self.globalTimer + (self.blocksamples : R) * (1.0 / (self.sampleRate : R)) ∧
    self'.sampleRate = self.sampleRate ∧ self'.blocksamples = self.blocksamples ∧
    self'.freeBlocks = (self.freeBlocks + UINT_MAX1 - 1) % UINT_MAX1 ∧
    self'.currentBlock = (self.currentBlock + 1) % self.countBlocks ∧
    ∃ memory, self'.blockMemoryPtr = some memory ∧
      ∀ i, i < self.blocksamples →
        (memory[self.currentBlock * self.blocksamples + i]?).map some
          = some (toSample w
              (clip ((self.actionPtr.getD AudioHandler.userProcess)
                (self.globalTimer + (i : R) * (1.0 / (self.sampleRate : R)))) 1.0
                * maxSample)) := by
  unfold mainThreadRound at h
  simp only [] at h
  cases hm : self.blockMemoryPtr with
  | none => simp [hm] at h
  | some memory =>
    cases hh : self.waveHeaderPtr with
    | none => simp [hm, hh] at h
    | some headers =>
      simp only [hm, hh] at h
      have hf : (match self.actionPtr with
          | none => AudioHandler.userProcess
          | some g => g) = self.actionPtr.getD AudioHandler.userProcess := by
        cases self.actionPtr <;> rfl
      rw [hf] at h
      cases hl : fillLoop w (self.actionPtr.getD AudioHandler.userProcess)
          (1.0 / (self.sampleRate : R)) (self.currentBlock * self.blocksamples) 0
          self.blocksamples
          { memory := memory, globalTimer := self.globalTimer, calls := [] } with
      | none => simp [hl] at h
      | some st =>
        simp only [hl] at h
        obtain ⟨e1, e2, e3⟩ := fillLoop_spec w _ _ _ _ _ _ _ hl
        simp only [List.nil_append, add_zero] at e1 e2 e3
        split_ifs at h with hc
        all_goals
          simp only [Option.some.injEq, Prod.mk.injEq] at h
          obtain ⟨h1, h2⟩ := h
          subst h1 h2
          exact ⟨e2, by rw [e2]; simp, e1, rfl, rfl, rfl, rfl, st.memory, rfl, e3⟩

/-- Whatever the device list, a name that is not in it does not stop `create`:
when the two allocations succeed the call returns `true`, marks the object
ready and starts the thread, without having opened a device. -/
theorem create_of_not_mem {R : Type} (sizeofT : Nat) (os : WaveOut) (self : AudioHandler R)
    (outputDevice : String) (sampleRate channels blocks blockSamples : Nat)
    (hdev : outputDevice ∉ os.devices) (halloc : ∀ n, os.allocate n = true) :
    (AudioHandler.create sizeofT os self outputDevice sampleRate channels blocks
      blockSamples).1 = true ∧
    (AudioHandler.create sizeofT os self outputDevice sampleRate channels blocks
      blockSamples).2.isReady = true ∧
    (AudioHandler.create sizeofT os self outputDevice sampleRate channels blocks
      blockSamples).2.thread = true ∧
    (AudioHandler.create sizeofT os self outputDevice sampleRate channels blocks
      blockSamples).2.hardwareDevices = self.hardwareDevices := by
  have hidx : os.devices.indexOf outputDevice = os.devices.length :=
    List.indexOf_eq_length.mpr hdev
  simp [AudioHandler.create, hidx, halloc]

/-- C1, evaluation: a 16-bit engine (`AudioHandler<short>`) whose synthesis
function is the constant `3 / 2 ^ 64` stores the sample `1` where the
full-scale factor `32767` of the claim gives `0`; and with the constant `1.0`
the scaled value `2 ^ 63 - 1` has no 16-bit conversion, where the claim gives
`32767`.  The scale factor of the code is `2 ^ 63 - 1`, from `sizeof(double)`,
not `2 ^ 15 - 1`. -/
theorem mainThread_scales_by_sizeof_double :
    (mainThreadRound 16 (constantEngine (3 / 2 ^ 64))).map (fun p => p.1.blockMemoryPtr)
      = some (some [1, 1, 0, 0]) ∧
    quantizeSpec 16 (clip ((3 : ℚ) / 2 ^ 64) 1.0) = 0 ∧
    mainThreadRound 16 (constantEngine 1) = none ∧
    quantizeSpec 16 (clip (1 : ℚ) 1.0) = 32767 ∧
    (maxSample : ℚ) = 2 ^ 63 - 1 := by
  refine ⟨?_, ?_, ?_, ?_, ?_⟩
  · simp [mainThreadRound, constantEngine, mainThreadStart, AudioHandler.create, speakersOnly,
      rawObject, fillLoop, toSample_small, UINT_MAX1, AudioHandler.initHeaders,
      AudioHandler.destroy]
  · have hc : clip ((3 : ℚ) / 2 ^ 64) 1.0 = 3 / 2 ^ 64 := by
      norm_num [clip]
    rw [quantizeSpec, hc]
    apply truncate_eq_floor <;> norm_num
  · simp [mainThreadRound, constantEngine, mainThreadStart, AudioHandler.create, speakersOnly,
      rawObject, fillLoop, toSample_full, UINT_MAX1, AudioHandler.initHeaders,
      AudioHandler.destroy]
  · have hc : clip (1 : ℚ) 1.0 = 1 := by
      norm_num [clip]
    rw [quantizeSpec, hc]
    apply truncate_eq_floor <;> norm_num
  · norm_num [maxSample]

/-- The default synthesis function always converts: `userProcess` returns
`0.0`. -/
theorem toSample_userProcess : toSample 16 (clip (0 : ℚ) 1.0 * maxSample) = some 0 := by
  have hc : clip (0 : ℚ) 1.0 = 0 := by
    norm_num [clip]
  have ht : truncate ((0 : ℚ) * maxSample) = 0 := by
    apply truncate_eq_floor <;> norm_num
  rw [toSample, hc, ht]
  decide

/-- The first round of the producer loop after `create(..., 44100, 1, 8, 512)`
on an object whose members `sampleRate` and `blocksamples` held `s0` and `b0`:
the synthesis function is called `b0` times, at the multiples of `1 / s0`, and
the timer ends at `b0 * (1 / s0)`. -/
theorem mainThreadRound_after_create (s0 b0 : Nat) (hb : b0 ≤ 4096) :
    (mainThreadRound 16 (mainThreadStart
        (AudioHandler.create 2 speakersOnly (rawObject s0 b0) "Speakers" 44100 1 8 512).2)).map
      (fun p => (p.2, p.1.globalTimer))
      = some ((List.range b0).map (fun (i : Nat) => (i : ℚ) * (1 / (s0 : ℚ))),
          (b0 : ℚ) * (1 / (s0 : ℚ))) := by
  have hsome := mainThreadRound_isSome 16 (mainThreadStart
      (AudioHandler.create 2 speakersOnly (rawObject s0 b0) "Speakers" 44100 1 8 512).2)
    (List.replicate ((8 * 512) % UINT_MAX1) 0) (AudioHandler.initHeaders 2 8 512) rfl rfl
    (by
      show (8 : Nat) ≠ 0
      decide)
    (by
      have hlen : (8 * 512) % UINT_MAX1 = 4096 := by
        norm_num [UINT_MAX1]
      rw [List.length_replicate, hlen]
      show 0 * b0 + b0 ≤ 4096
      omega)
    (fun t => by
      show (toSample 16 (clip (0.0 : ℚ) 1.0 * maxSample)).isSome = true
      rw [show (0.0 : ℚ) = 0 by norm_num, toSample_userProcess]
      rfl)
  obtain ⟨r, hr⟩ := Option.isSome_iff_exists.mp hsome
  obtain ⟨e1, _, e2, _⟩ := mainThreadRound_spec 16 _ r.1 r.2 hr
  rw [hr, Option.map_some', e1, e2]
  have hb0 : (mainThreadStart (AudioHandler.create 2 speakersOnly (rawObject s0 b0)
      "Speakers" 44100 1 8 512).2).blocksamples = b0 := rfl
  have hs0 : (mainThreadStart (AudioHandler.create 2 speakersOnly (rawObject s0 b0)
      "Speakers" 44100 1 8 512).2).sampleRate = s0 := rfl
  have ht0 : (mainThreadStart (AudioHandler.create 2 speakersOnly (rawObject s0 b0)
      "Speakers" 44100 1 8 512).2).globalTimer = 0 := by
    norm_num [mainThreadStart]
  rw [hb0, hs0, ht0]
  norm_num

/-- C2, evaluation: `create` leaves the members `sampleRate` and `blocksamples`
as the object held them, whatever values `s0` and `b0` those are.  On an object
that held `8000` and `3`, after `create(..., 44100, 1, 8, 512)` one round of the
producer loop calls the synthesis function three times and advances the timer
by `3 / 8000`, not by `512 * (1 / 44100)`; on an object whose storage was zero
the round calls it not at all and the timer stays at `0`. -/
theorem create_leaves_sampleRate_and_blocksamples :
    (∀ s0 b0 : Nat,
      (AudioHandler.create 2 speakersOnly (rawObject s0 b0) "Speakers" 44100 1 8 512).1
        = true ∧
      (AudioHandler.create 2 speakersOnly (rawObject s0 b0) "Speakers" 44100 1 8
        512).2.sampleRate = s0 ∧
      (AudioHandler.create 2 speakersOnly (rawObject s0 b0) "Speakers" 44100 1 8
        512).2.blocksamples = b0) ∧
    (mainThreadRound 16 (mainThreadStart
        (AudioHandler.create 2 speakersOnly (rawObject 8000 3) "Speakers" 44100 1 8 512).2)).map
      (fun p => (p.2, p.1.globalTimer)) = some ([0, 1 / 8000, 2 / 8000], 3 / 8000) ∧
    (mainThreadRound 16 (mainThreadStart
        (AudioHandler.create 2 speakersOnly (rawObject 0 0) "Speakers" 44100 1 8 512).2)).map
      (fun p => (p.2, p.1.globalTimer)) = some ([], 0) ∧
    (3 : ℚ) / 8000 ≠ 512 * (1 / 44100) ∧ (0 : ℚ) ≠ 512 * (1 / 44100) := by
  refine ⟨fun s0 b0 => ⟨rfl, rfl, rfl⟩, ?_, ?_, by norm_num, by norm_num⟩
  · rw [mainThreadRound_after_create 8000 3 (by decide)]
    norm_num [List.range_succ]
  · rw [mainThreadRound_after_create 0 0 (by decide)]
    norm_num

/-- C3, evaluation: from the state a successful `create` leaves with two blocks,
the schedule `overtakenNotify` brings the producer out of `wait` while
`freeBlocks` is `0`, and its next step decrements the counter at `0`: the
`unsigned int` wraps to `4294967295`, far above `countBlocks = 2`. -/
theorem freeBlocks_decremented_at_zero :
    Ring.run overtakenNotify (Ring.created 2)
      = some { countBlocks := 2, freeBlocks := 0, producer := ProducerAt.claim,
               submitted := 2, notifying := 0 } ∧
    Ring.run (overtakenNotify ++ [Event.producer]) (Ring.created 2)
      = some { countBlocks := 2, freeBlocks := 4294967295, producer := ProducerAt.fill,
               submitted := 2, notifying := 0 } ∧
    ¬ (4294967295 ≤ (Ring.created 2).countBlocks) := by
  decide

/-- C4, evaluation: with the single enumerated device "Speakers", `create` for
the device name "Headphones", which is not in the list, returns `true`, marks
the object ready and starts the producer thread, with no device opened. -/
theorem create_succeeds_on_unknown_device :
    "Headphones" ∉ speakersOnly.devices ∧
    (AudioHandler.create 2 speakersOnly (rawObject 0 0) "Headphones" 44100 1 8 512).1 = true ∧
    (AudioHandler.create 2 speakersOnly (rawObject 0 0) "Headphones" 44100 1 8 512).2.isReady
      = true ∧
    (AudioHandler.create 2 speakersOnly (rawObject 0 0) "Headphones" 44100 1 8 512).2.thread
      = true ∧
    (AudioHandler.create 2 speakersOnly (rawObject 0 0) "Headphones" 44100 1 8 512).2.hardwareDevices
      = none := by
  decide

/-! ### The oscillator bank -/

/-- The analog saw loop, started at the natural number `j` with enough fuel to
reach `n = 40`, adds the harmonics `j, ..., 39` to the accumulator. -/
theorem sawAnalogLoop_eq_sum {R : Type} [LinearOrderedField R] (sin : R → R) (hz time : R) :
    ∀ (fuel j : Nat) (acc : R), j + fuel = 41 →
      sawAnalogLoop sin hz time fuel (j : R) acc
        = acc + ∑ n ∈ Finset.Ico j 40, sin ((n : R) * hzToCurcVelocity hz * time) / (n : R) := by
  intro fuel
  induction fuel with
  | zero =>
    intro j acc hj
    have : Finset.Ico j 40 = ∅ := Finset.Ico_eq_empty (by omega)
    simp [sawAnalogLoop, this]
  | succ k ih =>
    intro j acc hj
    rw [sawAnalogLoop]
    by_cases hlt : j < 40
    · have hc : (j : R) < 40.0 := by
        have : (j : R) < ((40 : Nat) : R) := Nat.cast_lt.mpr hlt
        norm_num at this ⊢
        exact this
      rw [if_pos hc, show (j : R) + 1 = ((j + 1 : Nat) : R) by push_cast; rfl,
        ih (j + 1) _ (by omega), Finset.sum_eq_sum_Ico_succ_bot hlt, add_assoc]
    · have hc : ¬ (j : R) < 40.0 := by
        have : ((40 : Nat) : R) ≤ (j : R) := Nat.cast_le.mpr (by omega)
        norm_num at this ⊢
        exact this
      have : Finset.Ico j 40 = ∅ := Finset.Ico_eq_empty (by omega)
      rw [if_neg hc, this]
      simp

/-- The analog saw is `2 / PI` times the sum of the first 39 harmonics. -/
theorem oscilator_saw_analog {R : Type} [LinearOrderedField R] [FloorRing R]
    (sin asin : R → R) (rnd hz time : R) :
    oscilator sin asin rnd hz time OSCILATOR_SAW_ANALOG
      = (2 / PI) * ∑ n ∈ Finset.Icc (1 : Nat) 39,
          sin ((n : R) * (2 * PI * hz * time)) / (n : R) := by
  have h := sawAnalogLoop_eq_sum sin hz time 40 1 0.0 rfl
  have e : Finset.Icc (1 : Nat) 39 = Finset.Ico 1 40 := by
    ext n
    simp only [Finset.mem_Icc, Finset.mem_Ico]
    omega
  have e1 : (1.0 : R) = ((1 : Nat) : R) := by norm_num
  rw [oscilator, if_neg (by decide), if_neg (by decide), if_neg (by decide), if_pos rfl, e, e1, h]
  have e2 : ∀ n : Nat, (n : R) * hzToCurcVelocity hz * time = (n : R) * (2 * PI * hz * time) := by
    intro n
    rw [hzToCurcVelocity, show (2.0 : R) = 2 by norm_num]
    ring
  simp only [e2]
  rw [show (2.0 : R) = 2 by norm_num, show (0.0 : R) = 0 by norm_num]
  ring

/-- For a non-negative time and a positive frequency `fmod(time, 1 / hz)` is
`1 / hz` times the fractional part of `hz * time`. -/
theorem fmod_period {R : Type} [LinearOrderedField R] [FloorRing R] (hz time : R)
    (hhz : 0 < hz) (ht : 0 ≤ time) :
    hz * fmod time (1 / hz) = Int.fract (time * hz) := by
  have hq : time / (1 / hz) = time * hz := by
    field_simp
  have h0 : 0 ≤ time * hz := mul_nonneg ht (le_of_lt hhz)
  rw [fmod, hq, truncate, if_pos h0, Int.fract]
  field_simp

/-- Every sine value of a multiple of `π / 40` is at least the parabola
`1 - ((n - 20) * 3.1416 / 40) ^ 2 / 2`. -/
theorem sin_mul_pi_div_forty_ge_parabola (n : Nat) :
    1 - (((n : ℝ) - 20) * 3.1416 / 40) ^ 2 / 2 ≤ Real.sin ((n : ℝ) * (Real.pi / 40)) := by
  have h1 : Real.sin ((n : ℝ) * (Real.pi / 40))
      = Real.cos (((n : ℝ) - 20) * (Real.pi / 40)) := by
    rw [← Real.cos_pi_div_two_sub, ← Real.cos_neg]
    congr 1
    ring
  have h2 := @Real.one_sub_sq_div_two_le_cos (((n : ℝ) - 20) * (Real.pi / 40))
  have h3 : (((n : ℝ) - 20) * (Real.pi / 40)) ^ 2 ≤ (((n : ℝ) - 20) * 3.1416 / 40) ^ 2 := by
    have hpi : Real.pi ^ 2 ≤ 3.1416 ^ 2 :=
      pow_le_pow_left₀ (le_of_lt Real.pi_pos) (le_of_lt Real.pi_lt_d4) 2
    have hsq : 0 ≤ ((n : ℝ) - 20) ^ 2 := sq_nonneg _
    have : (((n : ℝ) - 20) * 3.1416 / 40) ^ 2 - (((n : ℝ) - 20) * (Real.pi / 40)) ^ 2
        = ((n : ℝ) - 20) ^ 2 * ((3.1416 ^ 2 - Real.pi ^ 2) / 1600) := by
      ring
    have hnn : 0 ≤ ((n : ℝ) - 20) ^ 2 * ((3.1416 ^ 2 - Real.pi ^ 2) / 1600) :=
      mul_nonneg hsq (by linarith)
    linarith
  rw [h1]
  linarith

/-- Near the origin the chord bound: `n / 20 ≤ sin (n * π / 40)` for `n ≤ 20`. -/
theorem sin_mul_pi_div_forty_ge_chord (n : Nat) (hn : n ≤ 20) :
    (n : ℝ) / 20 ≤ Real.sin ((n : ℝ) * (Real.pi / 40)) := by
  have hn' : (n : ℝ) ≤ 20 := by exact_mod_cast hn
  have h := @Real.mul_le_sin ((n : ℝ) * (Real.pi / 40))
    (mul_nonneg (Nat.cast_nonneg n) (le_of_lt (div_pos Real.pi_pos (by norm_num))))
    (by nlinarith [Real.pi_pos])
  have e : 2 / Real.pi * ((n : ℝ) * (Real.pi / 40)) = (n : ℝ) / 20 := by
    field_simp
    ring
  rw [e] at h
  exact h

/-- Near `π` the mirrored chord bound: `(40 - n) / 20 ≤ sin (n * π / 40)` for
`20 ≤ n ≤ 40`. -/
theorem sin_mul_pi_div_forty_ge_mirror (n : Nat) (h1 : 20 ≤ n) (h2 : n ≤ 40) :
    (40 - (n : ℝ)) / 20 ≤ Real.sin ((n : ℝ) * (Real.pi / 40)) := by
  have h := sin_mul_pi_div_forty_ge_chord (40 - n) (by omega)
  have e : (((40 - n : Nat) : ℝ)) = 40 - (n : ℝ) := by
    rw [Nat.cast_sub h2]
    norm_num
  rw [e] at h
  have e2 : Real.sin ((40 - (n : ℝ)) * (Real.pi / 40)) = Real.sin ((n : ℝ) * (Real.pi / 40)) := by
    rw [← Real.sin_pi_sub]
    congr 1
    ring
  rw [e2] at h
  exact h

/-- The sum of the first 39 harmonics at the angle `π / 40` exceeds `PI / 2`. -/
theorem harmonics_at_pi_div_forty :
    (3.1415 : ℝ) / 2
      < ∑ n ∈ Finset.Icc (1 : Nat) 39, Real.sin ((n : ℝ) * (Real.pi / 40)) / (n : ℝ) := by
  have hle : ∑ n ∈ Finset.Icc (1 : Nat) 39,
        (if n ≤ 3 then (n : ℝ) / 20
         else if n ≤ 36 then 1 - (((n : ℝ) - 20) * 3.1416 / 40) ^ 2 / 2
         else (40 - (n : ℝ)) / 20) / (n : ℝ)
      ≤ ∑ n ∈ Finset.Icc (1 : Nat) 39, Real.sin ((n : ℝ) * (Real.pi / 40)) / (n : ℝ) := by
    apply Finset.sum_le_sum
    intro n hn
    rw [Finset.mem_Icc] at hn
    apply div_le_div_of_nonneg_right _ (Nat.cast_nonneg n)
    split_ifs with ha hb
    · exact sin_mul_pi_div_forty_ge_chord n (by omega)
    · exact sin_mul_pi_div_forty_ge_parabola n
    · exact sin_mul_pi_div_forty_ge_mirror n (by omega) (by omega)
  refine lt_of_lt_of_le ?_ hle
  have e : Finset.Icc (1 : Nat) 39 = Finset.Ico 1 40 := by
    ext n
    simp only [Finset.mem_Icc, Finset.mem_Ico]
    omega
  rw [e, Finset.sum_Ico_eq_sum_range]
  simp only [Finset.sum_range_succ, Finset.sum_range_zero]
  norm_num

/-- C10, counterexample: at frequency `hz = 1` the triangle at
`t = π / (4 * 3.1415)` and the analog saw at `t = π / (80 * 3.1415)` are both
greater than `1`, although `hz > 0` and `t ≥ 0`. -/
theorem oscilator_exceeds_one :
    (0 : ℝ) < 1 ∧ 0 ≤ Real.pi / (4 * 3.1415) ∧ 0 ≤ Real.pi / (80 * 3.1415) ∧
    1 < oscilator Real.sin Real.arcsin 0 1 (Real.pi / (4 * 3.1415)) OSCILATOR_TRIANGLE ∧
    1 < oscilator Real.sin Real.arcsin 0 1 (Real.pi / (80 * 3.1415)) OSCILATOR_SAW_ANALOG := by
  refine ⟨one_pos, ?_, ?_, ?_, ?_⟩
  · exact div_nonneg (le_of_lt Real.pi_pos) (by norm_num)
  · exact div_nonneg (le_of_lt Real.pi_pos) (by norm_num)
  · have e : hzToCurcVelocity (1 : ℝ) * (Real.pi / (4 * 3.1415)) = Real.pi / 2 := by
      rw [hzToCurcVelocity, PI, show (2.0 : ℝ) = 2 by norm_num]
      field_simp
      ring
    rw [oscilator, if_neg (by decide), if_neg (by decide), if_pos rfl, e, Real.sin_pi_div_two,
      Real.arcsin_one, PI]
    have := Real.pi_gt_d4
    norm_num
    linarith
  · rw [oscilator_saw_analog]
    have e : ∀ n : Nat, (n : ℝ) * (2 * PI * 1 * (Real.pi / (80 * 3.1415)))
        = (n : ℝ) * (Real.pi / 40) := by
      intro n
      rw [PI]
      congr 1
      field_simp
      ring
    simp only [e]
    have h := harmonics_at_pi_div_forty
    rw [PI]
    have hpos : (0 : ℝ) < 2 / 3.1415 := by norm_num
    calc (1 : ℝ) = 2 / 3.1415 * (3.1415 / 2) := by norm_num
      _ < 2 / 3.1415 * ∑ n ∈ Finset.Icc (1 : Nat) 39,
            Real.sin ((n : ℝ) * (Real.pi / 40)) / (n : ℝ) :=
          mul_lt_mul_of_pos_left h hpos

/-- C10, amended: for every frequency `hz > 0` and time `t ≥ 0`, with the
constant `PI = 3.1415` of the code: the sine is `sin(2*PI*hz*t)` and lies in
`[-1, 1]`; the square is `1` or `-1`; the digital saw is
`(2/PI) * (hz*PI*fmod(t, 1/hz) - PI/2)` and lies in `[-1, 1)`; the triangle is
`asin(sin(2*PI*hz*t)) * (2/PI)` and lies in `[-π/PI, π/PI]`, an interval
slightly wider than `[-1, 1]` (`π/PI < 1.00003`); the analog saw is
`(2/PI) * sum_{n=1}^{39} sin(n*2*PI*hz*t)/n` and is bounded in absolute value by
`(2/PI) * sum_{n=1}^{39} 1/n`. -/
theorem oscilator_range (rnd hz t : ℝ) (hhz : 0 < hz) (ht : 0 ≤ t) :
    (oscilator Real.sin Real.arcsin rnd hz t OSCILATOR_SINE = Real.sin (2 * PI * hz * t) ∧
      -1 ≤ oscilator Real.sin Real.arcsin rnd hz t OSCILATOR_SINE ∧
      oscilator Real.sin Real.arcsin rnd hz t OSCILATOR_SINE ≤ 1) ∧
    (oscilator Real.sin Real.arcsin rnd hz t OSCILATOR_SQUARE
        = (if Real.sin (2 * PI * hz * t) > 0 then 1 else -1) ∧
      (oscilator Real.sin Real.arcsin rnd hz t OSCILATOR_SQUARE = 1 ∨
        oscilator Real.sin Real.arcsin rnd hz t OSCILATOR_SQUARE = -1)) ∧
    (oscilator Real.sin Real.arcsin rnd hz t OSCILATOR_TRIANGLE
        = Real.arcsin (Real.sin (2 * PI * hz * t)) * (2 / PI) ∧
      |oscilator Real.sin Real.arcsin rnd hz t OSCILATOR_TRIANGLE| ≤ Real.pi / PI ∧
      Real.pi / PI < 1.00003) ∧
    (oscilator Real.sin Real.arcsin rnd hz t OSCILATOR_SAW_ANALOG
        = (2 / PI) * ∑ n ∈ Finset.Icc (1 : Nat) 39,
            Real.sin ((n : ℝ) * (2 * PI * hz * t)) / (n : ℝ) ∧
      |oscilator Real.sin Real.arcsin rnd hz t OSCILATOR_SAW_ANALOG|
        ≤ (2 / PI) * ∑ n ∈ Finset.Icc (1 : Nat) 39, 1 / (n : ℝ)) ∧
    (oscilator Real.sin Real.arcsin rnd hz t OSCILATOR_SAW_DIGITAL
        = (2 / PI) * (hz * PI * fmod t (1 / hz) - PI / 2) ∧
      -1 ≤ oscilator Real.sin Real.arcsin rnd hz t OSCILATOR_SAW_DIGITAL ∧
      oscilator Real.sin Real.arcsin rnd hz t OSCILATOR_SAW_DIGITAL < 1) := by
  have hw : hzToCurcVelocity hz * t = 2 * PI * hz * t := by
    rw [hzToCurcVelocity, show (2.0 : ℝ) = 2 by norm_num]
    ring
  have hPI : (0 : ℝ) < PI := by
    rw [PI]
    norm_num
  have hsine : oscilator Real.sin Real.arcsin rnd hz t OSCILATOR_SINE
      = Real.sin (2 * PI * hz * t) := by
    rw [oscilator, if_pos rfl, hw]
  have hsquare : oscilator Real.sin Real.arcsin rnd hz t OSCILATOR_SQUARE
      = (if Real.sin (2 * PI * hz * t) > 0 then 1 else -1) := by
    rw [oscilator, if_neg (by decide), if_pos rfl, hw]
    norm_num
  have htri : oscilator Real.sin Real.arcsin rnd hz t OSCILATOR_TRIANGLE
      = Real.arcsin (Real.sin (2 * PI * hz * t)) * (2 / PI) := by
    rw [oscilator, if_neg (by decide), if_neg (by decide), if_pos rfl, hw]
    norm_num
  have hsaw := oscilator_saw_analog Real.sin Real.arcsin rnd hz t
  have hdig : oscilator Real.sin Real.arcsin rnd hz t OSCILATOR_SAW_DIGITAL
      = (2 / PI) * (hz * PI * fmod t (1 / hz) - PI / 2) := by
    rw [oscilator, if_neg (by decide), if_neg (by decide), if_neg (by decide),
      if_neg (by decide), if_pos rfl]
    norm_num
  refine ⟨⟨hsine, ?_, ?_⟩, ⟨hsquare, ?_⟩, ⟨htri, ?_, ?_⟩, ⟨hsaw, ?_⟩, ⟨hdig, ?_, ?_⟩⟩
  · rw [hsine]
    exact Real.neg_one_le_sin _
  · rw [hsine]
    exact Real.sin_le_one _
  · rw [hsquare]
    split_ifs
    · exact Or.inl rfl
    · exact Or.inr rfl
  · rw [htri, abs_mul, abs_of_pos (div_pos two_pos hPI)]
    have h1 : |Real.arcsin (Real.sin (2 * PI * hz * t))| ≤ Real.pi / 2 :=
      abs_le.mpr ⟨Real.neg_pi_div_two_le_arcsin _, Real.arcsin_le_pi_div_two _⟩
    calc |Real.arcsin (Real.sin (2 * PI * hz * t))| * (2 / PI)
        ≤ Real.pi / 2 * (2 / PI) :=
          mul_le_mul_of_nonneg_right h1 (le_of_lt (div_pos two_pos hPI))
      _ = Real.pi / PI := by
          field_simp
  · rw [div_lt_iff₀ hPI, PI]
    have := Real.pi_lt_d6
    norm_num at this ⊢
    linarith
  · rw [hsaw, abs_mul, abs_of_pos (div_pos two_pos hPI)]
    apply mul_le_mul_of_nonneg_left _ (le_of_lt (div_pos two_pos hPI))
    refine le_trans (Finset.abs_sum_le_sum_abs _ _) ?_
    apply Finset.sum_le_sum
    intro n hn
    rw [Finset.mem_Icc] at hn
    have hn0 : (0 : ℝ) < (n : ℝ) := by exact_mod_cast hn.1
    rw [abs_div, abs_of_pos hn0]
    exact div_le_div_of_nonneg_right (Real.abs_sin_le_one _) (le_of_lt hn0)
  · rw [hdig]
    have hp := fmod_period hz t hhz ht
    have e : (2 / PI) * (hz * PI * fmod t (1 / hz) - PI / 2)
        = 2 * (hz * fmod t (1 / hz)) - 1 := by
      field_simp
      ring
    rw [e, hp]
    linarith [Int.fract_nonneg (t * hz)]
  · rw [hdig]
    have hp := fmod_period hz t hhz ht
    have e : (2 / PI) * (hz * PI * fmod t (1 / hz) - PI / 2)
        = 2 * (hz * fmod t (1 / hz)) - 1 := by
      field_simp
      ring
    rw [e, hp]
    linarith [Int.fract_lt_one (t * hz)]

/-- C10 witness: the amended statement at `hz = 440`, `t = 1`. -/
theorem oscilator_range_witness :
    (0 : ℝ) < 440 ∧ (0 : ℝ) ≤ 1 ∧
    -1 ≤ oscilator Real.sin Real.arcsin 0 440 1 OSCILATOR_SAW_DIGITAL ∧
    oscilator Real.sin Real.arcsin 0 440 1 OSCILATOR_SAW_DIGITAL < 1 :=
  ⟨by norm_num, by norm_num,
    (oscilator_range 0 440 1 (by norm_num) (by norm_num)).2.2.2.2.2.1,
    (oscilator_range 0 440 1 (by norm_num) (by norm_num)).2.2.2.2.2.2⟩

end Synth
